import Mathlib

/-!
Verification of the volcano batch scheduler (umialpha/volcano fork) against
its natural-language specification.  The Go sources under `pkg/` are embedded
shallowly: pure decision logic becomes Lean functions, machine state becomes
explicit record passing, and the fallible controller paths return
`Except`/`Option`.  Components whose Go sources are not part of the
repository snapshot (the resource arithmetic helpers, the priority queue,
the allocate action and the queue webhooks, of which only tests or callers
are present) are modelled from the specification text, as marked in their
doc comments.
-/

namespace Volcano

/-- Modelled from the spec (§3 Resource): a vector of named scalars with
dimension-wise arithmetic.  The repository's `Resource` type
(`pkg/scheduler/api/resource_info.go`) is absent from the snapshot; the
model carries the two dimensions exercised by every claim and scenario:
CPU in milli-units and memory in bytes.  All operations are
dimension-wise, exactly as the spec prescribes. -/
structure Resource where
  milliCPU : ℚ
  memory : ℚ
deriving DecidableEq, Repr

namespace Resource

/-- Modelled from the spec: dimension-wise addition (`Add`). -/
def Add (a b : Resource) : Resource :=
  ⟨a.milliCPU + b.milliCPU, a.memory + b.memory⟩

/-- Modelled from the spec: dimension-wise subtraction (`Sub`). -/
def Sub (a b : Resource) : Resource :=
  ⟨a.milliCPU - b.milliCPU, a.memory - b.memory⟩

/-- Modelled from the spec: scalar multiplication (`Multi(factor)`). -/
def Multi (a : Resource) (factor : ℚ) : Resource :=
  ⟨a.milliCPU * factor, a.memory * factor⟩

/-- Modelled from the spec: `LessEqual`, every dimension `≤`. -/
def LessEqual (a b : Resource) : Prop :=
  a.milliCPU ≤ b.milliCPU ∧ a.memory ≤ b.memory

instance (a b : Resource) : Decidable (LessEqual a b) :=
  inferInstanceAs (Decidable (a.milliCPU ≤ b.milliCPU ∧ a.memory ≤ b.memory))

/-- Modelled from the spec: `IsEmpty`, every dimension zero. -/
def IsEmpty (a : Resource) : Prop :=
  a.milliCPU = 0 ∧ a.memory = 0

instance (a : Resource) : Decidable (IsEmpty a) :=
  inferInstanceAs (Decidable (a.milliCPU = 0 ∧ a.memory = 0))

/-- Zero resource (`api.EmptyResource()`). -/
def Empty : Resource := ⟨0, 0⟩

instance : LE Resource := ⟨LessEqual⟩

instance : DecidableRel (· ≤ · : Resource → Resource → Prop) :=
  fun a b => inferInstanceAs (Decidable (LessEqual a b))

theorem le_def (a b : Resource) : a ≤ b ↔ a.milliCPU ≤ b.milliCPU ∧ a.memory ≤ b.memory :=
  Iff.rfl

theorem LessEqual_iff (a b : Resource) : a.LessEqual b ↔ a ≤ b :=
  Iff.rfl

end Resource

/-- Phases of a PodGroup (`pkg/apis/scheduling`): `Pending`, `Inqueue`,
`Running`, `Unknown`, `Completed`. -/
inductive PodGroupPhase where
  | Pending
  | Inqueue
  | Running
  | Unknown
  | Completed
deriving DecidableEq, Repr

/-! ## Priority queue

Modelled from the spec (§4.1): a binary-heap min-queue parameterized by an
ordering function `less`.  `Pop` returns a least element with respect to
`less` (ties resolved arbitrarily by the heap; the model takes the earliest
pushed), `Push` inserts.  The queue is represented by the list of its
elements in push order. -/

/-- Modelled from the spec (§4.1): pop a least element (with respect to
`less`) from the non-empty queue `x :: xs`; returns the popped element and
the remaining elements. -/
def pqPop1 {α : Type} (less : α → α → Bool) : α → List α → α × List α
  | x, [] => (x, [])
  | x, y :: ys =>
      let p := pqPop1 less y ys
      if less p.1 x then (p.1, x :: p.2) else (x, y :: ys)

theorem pqPop1_length {α : Type} (less : α → α → Bool) (x : α) (xs : List α) :
    (pqPop1 less x xs).2.length = xs.length := by
  induction xs generalizing x with
  | nil => simp [pqPop1]
  | cons y ys ih =>
      simp only [pqPop1]
      by_cases h : less (pqPop1 less y ys).1 x = true
      · simp [h, List.length_cons, ih y]
      · simp [h]

theorem pqPop1_perm {α : Type} (less : α → α → Bool) (x : α) (xs : List α) :
    List.Perm ((pqPop1 less x xs).1 :: (pqPop1 less x xs).2) (x :: xs) := by
  induction xs generalizing x with
  | nil => simp [pqPop1]
  | cons y ys ih =>
      simp only [pqPop1]
      by_cases h : less (pqPop1 less y ys).1 x = true
      · simp only [h, if_pos]
        exact List.Perm.trans (List.Perm.swap x _ _) ((ih y).cons x)
      · simp [h]

/-! ## Enqueue action (`pkg/scheduler/actions/enqueue/enqueue.go`) -/

namespace Enqueue

/-- Fragment of `api.QueueInfo` used by the enqueue action: the queue's UID,
name, and the state carried by the underlying `Queue` object
(`Open`/`Closed`, a string in the API). -/
structure QueueInfo where
  uid : String
  qname : String
  state : String
deriving DecidableEq, Repr

/-- Fragment of `api.JobInfo` used by the enqueue action: UID, namespace and
name, owning queue ID, the PodGroup phase, and the PodGroup's optional
`MinResources`. -/
structure JobInfo where
  uid : String
  ns : String
  jname : String
  queue : String
  phase : PodGroupPhase
  minResources : Option Resource
deriving DecidableEq, Repr

/-- Fragment of `api.NodeInfo` used by the enqueue action: allocatable and
used resource. -/
structure NodeInfo where
  nodeName : String
  allocatable : Resource
  used : Resource
deriving DecidableEq, Repr

/-- The part of `framework.Session` read by `enqueue.Execute`: jobs (in map
iteration order), queues, nodes, and the `overcommit-factor` action
argument from the scheduler configuration (`none` when absent). -/
structure Session where
  jobs : List JobInfo
  queues : List QueueInfo
  nodes : List NodeInfo
  overcommitArg : Option ℚ
deriving Repr

/-- Plugin-composed callbacks the session exposes to the enqueue action:
`QueueOrderFn`, `JobOrderFn` (both `less` predicates for the priority
queues) and `JobEnqueueable` (AND of the enabled plugins' guards). -/
structure Params where
  queueLess : QueueInfo → QueueInfo → Bool
  jobLess : JobInfo → JobInfo → Bool
  jobEnqueueable : JobInfo → Bool

/-- The `defaultOverCommitFactor` of `enqueue.go` (1.2). -/
def defaultOverCommitFactor : ℚ := 6 / 5

/-- Embeds `getOverCommitFactor`: the `overcommit-factor` argument of the
enqueue action when configured, `defaultOverCommitFactor` otherwise. -/
def getOverCommitFactor (ssn : Session) : ℚ :=
  ssn.overcommitArg.getD defaultOverCommitFactor

/-- Lookup of `ssn.Queues[job.Queue]` by queue UID. -/
def findQueue (queues : List QueueInfo) (qid : String) : Option QueueInfo :=
  queues.find? (fun q => q.uid = qid)

/-- Association list standing for Go's `jobsMap map[api.QueueID]*util.PriorityQueue`. -/
abbrev JobsMap := List (String × List JobInfo)

/-- Lookup in the per-queue jobs map (first entry with the key, as in a Go
map whose keys are unique). -/
def jmFind : JobsMap → String → Option (List JobInfo)
  | [], _ => none
  | e :: es, qid => if e.1 = qid then some e.2 else jmFind es qid

/-- Replaces the first entry for `qid` in the jobs map. -/
def jmSet : JobsMap → String → List JobInfo → JobsMap
  | [], _, _ => []
  | e :: es, qid, js => if e.1 = qid then (qid, js) :: es else e :: jmSet es qid js

/-- Appends a job to the per-queue jobs map, creating the entry on first use
(Go: `jobsMap[job.Queue] = util.NewPriorityQueue(...)` then `Push`). -/
def jmPush (jm : JobsMap) (qid : String) (j : JobInfo) : JobsMap :=
  match jmFind jm qid with
  | none => jm ++ [(qid, [j])]
  | some js => jmSet jm qid (js ++ [j])

/-- One step of the first loop of `enqueue.Execute` (lines 63–85): skip the
job when its queue is missing from `ssn.Queues`; otherwise push the queue
into the queue priority queue if not seen before, and push the job into its
queue's job priority queue when its PodGroup phase is `Pending`. -/
def buildStep (ssnQueues : List QueueInfo) (st : List QueueInfo × JobsMap)
    (job : JobInfo) : List QueueInfo × JobsMap :=
  match findQueue ssnQueues job.queue with
  | none => st
  | some q =>
      let queues := if st.1.any (fun r => r.uid = q.uid) then st.1 else st.1 ++ [q]
      let jm := if job.phase = PodGroupPhase.Pending then jmPush st.2 job.queue job else st.2
      (queues, jm)

/-- Embeds the first loop of `enqueue.Execute` (lines 63–85) over the whole
job list. -/
def buildMaps (jobs : List JobInfo) (ssnQueues : List QueueInfo) :
    List QueueInfo × JobsMap :=
  jobs.foldl (buildStep ssnQueues) ([], [])

/-- Embeds the second loop of `enqueue.Execute` (lines 89–95): cluster
totals `total = Σ node.Allocatable`, `used = Σ node.Used`. -/
def clusterTotal (nodes : List NodeInfo) : Resource :=
  nodes.foldl (fun acc n => acc.Add n.allocatable) Resource.Empty

/-- Sum of used resource over the session's nodes. -/
def clusterUsed (nodes : List NodeInfo) : Resource :=
  nodes.foldl (fun acc n => acc.Add n.used) Resource.Empty

/-- The initial idle resource of `enqueue.Execute` (line 95):
`total.Clone().Multi(factor).Sub(used)`. -/
def initialIdle (ssn : Session) : Resource :=
  ((clusterTotal ssn.nodes).Multi (getOverCommitFactor ssn)).Sub (clusterUsed ssn.nodes)

/-- One observable event of the admission loop: the popped job, the idle
resource before and after the decision, and whether the job was admitted
(its PodGroup phase set to `Inqueue`). -/
structure Event where
  job : JobInfo
  idleBefore : Resource
  idleAfter : Resource
  admitted : Bool
deriving DecidableEq, Repr

/-- Embeds the main loop of `enqueue.Execute` (lines 97–135), instrumented
to record one `Event` per popped job.  Each iteration: stop when the queue
priority queue is empty or the idle resource is empty; pop a queue; if its
job queue is missing or empty, drop the queue; otherwise pop its least job,
admit it when `MinResources` is nil, or when `JobEnqueueable` holds and
`MinResources ≤ idle` (subtracting `MinResources` from idle), and push the
queue back.  The fuel argument bounds the number of iterations; `none`
means the fuel ran out. -/
def loop (P : Params) : ℕ → List QueueInfo → JobsMap → Resource → List Event →
    Option (List Event)
  | 0, _, _, _, _ => none
  | _ + 1, [], _, _, acc => some acc
  | fuel + 1, q0 :: qs, jm, idle, acc =>
      if idle.IsEmpty then some acc
      else
        let pq := pqPop1 P.queueLess q0 qs
        match jmFind jm pq.1.uid with
        | none => loop P fuel pq.2 jm idle acc
        | some [] => loop P fuel pq.2 jm idle acc
        | some (j0 :: js) =>
            let pj := pqPop1 P.jobLess j0 js
            let jm' := jmSet jm pq.1.uid pj.2
            match pj.1.minResources with
            | none =>
                loop P fuel (pq.2 ++ [pq.1]) jm' idle
                  (acc ++ [⟨pj.1, idle, idle, true⟩])
            | some minReq =>
                if P.jobEnqueueable pj.1 = true ∧ minReq.LessEqual idle then
                  loop P fuel (pq.2 ++ [pq.1]) jm' (idle.Sub minReq)
                    (acc ++ [⟨pj.1, idle, idle.Sub minReq, true⟩])
                else
                  loop P fuel (pq.2 ++ [pq.1]) jm' idle
                    (acc ++ [⟨pj.1, idle, idle, false⟩])

/-- Total number of jobs held in the per-queue job priority queues. -/
def jmSize (jm : JobsMap) : ℕ :=
  (jm.map (fun e => e.2.length)).sum

/-- Fuel that suffices for the admission loop (proved in
`loop_isSome_of_fuel`). -/
def enoughFuel (queues : List QueueInfo) (jm : JobsMap) : ℕ :=
  queues.length + jmSize jm + 1

/-- The admission loop of `enqueue.Execute` run over a session, returning
the recorded trace of pop events. -/
def ExecuteTrace (P : Params) (ssn : Session) : Option (List Event) :=
  let built := buildMaps ssn.jobs ssn.queues
  loop P (enoughFuel built.1 built.2) built.1 built.2 (initialIdle ssn) []

/-- UIDs of the jobs a trace admitted. -/
def admittedUids (tr : List Event) : List String :=
  (tr.filter (fun e => e.admitted)).map (fun e => e.job.uid)

/-- Embeds `enqueue.Execute` end to end: the session's jobs after the pass,
with the phase of every admitted job set to `Inqueue`
(`job.PodGroup.Status.Phase = scheduling.PodGroupInqueue`). -/
def Execute (P : Params) (ssn : Session) : List JobInfo :=
  match ExecuteTrace P ssn with
  | none => ssn.jobs
  | some tr =>
      ssn.jobs.map (fun j =>
        if (admittedUids tr).contains j.uid then { j with phase := PodGroupPhase.Inqueue } else j)

/-- All jobs held in the per-queue job priority queues, in entry order. -/
def jmJobs : JobsMap → List JobInfo
  | [] => []
  | e :: es => e.2 ++ jmJobs es

theorem jmSize_set (jm : JobsMap) (qid : String) (l l' : List JobInfo)
    (h : jmFind jm qid = some l) :
    jmSize (jmSet jm qid l') + l.length = jmSize jm + l'.length := by
  induction jm with
  | nil => simp [jmFind] at h
  | cons e es ih =>
      by_cases he : e.1 = qid
      · simp only [jmFind, he, if_pos, Option.some.injEq] at h
        simp only [jmSet, he, if_pos, jmSize, List.map_cons, List.sum_cons, h]
        omega
      · simp only [jmFind, he, if_neg, not_false_iff] at h
        simp only [jmSet, he, if_neg, not_false_iff, jmSize, List.map_cons, List.sum_cons]
        have := ih h
        simp only [jmSize] at this
        omega

theorem loop_isSome_of_fuel (P : Params) :
    ∀ fuel (queues : List QueueInfo) (jm : JobsMap) (idle : Resource)
      (acc : List Event), queues.length + jmSize jm < fuel →
      (loop P fuel queues jm idle acc).isSome := by
  intro fuel
  induction fuel with
  | zero => intro queues jm idle acc h; omega
  | succ fuel ih =>
      intro queues jm idle acc h
      match queues with
      | [] => simp [loop]
      | q0 :: qs =>
          simp only [loop]
          by_cases hidle : idle.IsEmpty
          · simp [hidle]
          · simp only [hidle, Bool.false_eq_true, if_neg, not_false_iff]
            have hlen : (pqPop1 P.queueLess q0 qs).2.length = qs.length :=
              pqPop1_length P.queueLess q0 qs
            match hfind : jmFind jm (pqPop1 P.queueLess q0 qs).1.uid with
            | none =>
                dsimp only
                exact ih _ _ idle acc (by simp only [hlen]; simp at h; omega)
            | some [] =>
                dsimp only
                exact ih _ _ idle acc (by simp only [hlen]; simp at h; omega)
            | some (j0 :: js) =>
                dsimp only
                have hjlen : (pqPop1 P.jobLess j0 js).2.length = js.length :=
                  pqPop1_length P.jobLess j0 js
                have hsize :
                    jmSize (jmSet jm (pqPop1 P.queueLess q0 qs).1.uid (pqPop1 P.jobLess j0 js).2)
                      + (j0 :: js).length = jmSize jm + (pqPop1 P.jobLess j0 js).2.length :=
                  jmSize_set jm _ _ _ hfind
                have hm : ((pqPop1 P.queueLess q0 qs).2 ++ [(pqPop1 P.queueLess q0 qs).1]).length
                    + jmSize (jmSet jm (pqPop1 P.queueLess q0 qs).1.uid (pqPop1 P.jobLess j0 js).2)
                    < fuel := by
                  simp only [List.length_append, List.length_cons, List.length_nil, hlen]
                  simp only [List.length_cons, hjlen] at hsize
                  simp only [List.length_cons] at h
                  omega
                match (pqPop1 P.jobLess j0 js).1.minResources with
                | none =>
                    dsimp only
                    exact ih _ _ idle _ hm
                | some minReq =>
                    dsimp only
                    by_cases hcond :
                        P.jobEnqueueable (pqPop1 P.jobLess j0 js).1 = true ∧ minReq.LessEqual idle
                    · rw [if_pos hcond]
                      exact ih _ _ _ _ hm
                    · rw [if_neg hcond]
                      exact ih _ _ idle _ hm

theorem ExecuteTrace_isSome (P : Params) (ssn : Session) :
    (ExecuteTrace P ssn).isSome := by
  unfold ExecuteTrace
  exact loop_isSome_of_fuel P _ _ _ _ _ (by simp [enoughFuel])

/-- Admission contribution of one trace event: the job's `MinResources`
when the job was admitted with non-nil `MinResources`, zero otherwise. -/
def eventMin (e : Event) : Resource :=
  if e.admitted then e.job.minResources.getD Resource.Empty else Resource.Empty

/-- Aggregate `MinResources` admitted along a trace; jobs admitted with nil
`MinResources` contribute zero. -/
def sumMin (tr : List Event) : Resource :=
  tr.foldl (fun r e => r.Add (eventMin e)) Resource.Empty

theorem sumMin_append_one (acc : List Event) (e : Event) :
    sumMin (acc ++ [e]) = (sumMin acc).Add (eventMin e) := by
  simp [sumMin, List.foldl_append]

theorem Resource.Add_Empty (a : Resource) : a.Add Resource.Empty = a := by
  cases a; simp [Resource.Add, Resource.Empty]

theorem loop_sum (P : Params) :
    ∀ (fuel : ℕ) (queues : List QueueInfo) (jm : JobsMap) (idle : Resource)
      (acc : List Event) (tr : List Event),
      loop P fuel queues jm idle acc = some tr →
      Resource.Empty ≤ idle →
      sumMin tr ≤ (sumMin acc).Add idle := by
  intro fuel
  induction fuel with
  | zero => intro queues jm idle acc tr h; simp [loop] at h
  | succ fuel ih =>
      intro queues jm idle acc tr h hidle
      match queues with
      | [] =>
          simp only [loop, Option.some.injEq] at h
          subst h
          obtain ⟨h1, h2⟩ := hidle
          exact ⟨by simp [Resource.Add, Resource.Empty] at h1 ⊢; linarith,
                 by simp [Resource.Add, Resource.Empty] at h2 ⊢; linarith⟩
      | q0 :: qs =>
          simp only [loop] at h
          by_cases hie : idle.IsEmpty
          · rw [if_pos hie] at h
            injection h with h
            subst h
            obtain ⟨h1, h2⟩ := hidle
            exact ⟨by simp [Resource.Add, Resource.Empty] at h1 ⊢; linarith,
                   by simp [Resource.Add, Resource.Empty] at h2 ⊢; linarith⟩
          · rw [if_neg hie] at h
            match hfind : jmFind jm (pqPop1 P.queueLess q0 qs).1.uid with
            | none =>
                rw [hfind] at h
                exact ih _ _ _ _ _ h hidle
            | some [] =>
                rw [hfind] at h
                exact ih _ _ _ _ _ h hidle
            | some (j0 :: js) =>
                rw [hfind] at h
                dsimp only at h
                match hmr : (pqPop1 P.jobLess j0 js).1.minResources with
                | none =>
                    rw [hmr] at h
                    dsimp only at h
                    have := ih _ _ _ _ _ h hidle
                    rw [sumMin_append_one] at this
                    simpa [eventMin, hmr, Resource.Add_Empty] using this
                | some minReq =>
                    rw [hmr] at h
                    dsimp only at h
                    by_cases hcond :
                        P.jobEnqueueable (pqPop1 P.jobLess j0 js).1 = true ∧ minReq.LessEqual idle
                    · rw [if_pos hcond] at h
                      have hleq : minReq ≤ idle := hcond.2
                      have hnn : Resource.Empty ≤ idle.Sub minReq := by
                        obtain ⟨l1, l2⟩ := hleq
                        exact ⟨by simp [Resource.Sub, Resource.Empty]; linarith,
                               by simp [Resource.Sub, Resource.Empty]; linarith⟩
                      have := ih _ _ _ _ _ h hnn
                      rw [sumMin_append_one] at this
                      simp only [eventMin, hmr, if_pos, Option.getD_some] at this
                      obtain ⟨t1, t2⟩ := this
                      exact ⟨by simp [Resource.Add, Resource.Sub] at t1 ⊢; linarith,
                             by simp [Resource.Add, Resource.Sub] at t2 ⊢; linarith⟩
                    · rw [if_neg hcond] at h
                      have := ih _ _ _ _ _ h hidle
                      rw [sumMin_append_one] at this
                      simpa [eventMin, Resource.Add_Empty] using this

/-- The admission decision and idle-resource bookkeeping recorded by one
trace event, as the spec describes them: admit unconditionally on nil
`MinResources`; otherwise admit exactly when `JobEnqueueable` holds and
`MinResources ≤ idle`, subtracting `MinResources` from idle. -/
def eventOK (P : Params) (e : Event) : Prop :=
  (e.admitted = true ↔ (e.job.minResources = none ∨
    ∃ m, e.job.minResources = some m ∧ P.jobEnqueueable e.job = true ∧ m ≤ e.idleBefore)) ∧
  e.idleAfter = (match e.job.minResources with
    | none => e.idleBefore
    | some m => if e.admitted then e.idleBefore.Sub m else e.idleBefore)

theorem loop_eventOK (P : Params) :
    ∀ (fuel : ℕ) (queues : List QueueInfo) (jm : JobsMap) (idle : Resource)
      (acc : List Event) (tr : List Event),
      loop P fuel queues jm idle acc = some tr →
      (∀ e ∈ acc, eventOK P e) →
      ∀ e ∈ tr, eventOK P e := by
  intro fuel
  induction fuel with
  | zero => intro queues jm idle acc tr h; simp [loop] at h
  | succ fuel ih =>
      intro queues jm idle acc tr h hacc
      match queues with
      | [] =>
          simp only [loop, Option.some.injEq] at h
          subst h; exact hacc
      | q0 :: qs =>
          simp only [loop] at h
          by_cases hie : idle.IsEmpty
          · rw [if_pos hie] at h
            injection h with h
            subst h; exact hacc
          · rw [if_neg hie] at h
            match hfind : jmFind jm (pqPop1 P.queueLess q0 qs).1.uid with
            | none => rw [hfind] at h; exact ih _ _ _ _ _ h hacc
            | some [] => rw [hfind] at h; exact ih _ _ _ _ _ h hacc
            | some (j0 :: js) =>
                rw [hfind] at h
                dsimp only at h
                match hmr : (pqPop1 P.jobLess j0 js).1.minResources with
                | none =>
                    rw [hmr] at h
                    dsimp only at h
                    refine ih _ _ _ _ _ h ?_
                    intro e he
                    rcases List.mem_append.mp he with he | he
                    · exact hacc e he
                    · rcases List.mem_singleton.mp he with rfl
                      constructor
                      · simp [hmr]
                      · simp [hmr]
                | some minReq =>
                    rw [hmr] at h
                    dsimp only at h
                    by_cases hcond :
                        P.jobEnqueueable (pqPop1 P.jobLess j0 js).1 = true ∧ minReq.LessEqual idle
                    · rw [if_pos hcond] at h
                      refine ih _ _ _ _ _ h ?_
                      intro e he
                      rcases List.mem_append.mp he with he | he
                      · exact hacc e he
                      · rcases List.mem_singleton.mp he with rfl
                        constructor
                        · simp only [hmr, true_iff]
                          exact Or.inr ⟨minReq, rfl, hcond.1,
                            (Resource.LessEqual_iff _ _).mp hcond.2⟩
                        · simp [hmr]
                    · rw [if_neg hcond] at h
                      refine ih _ _ _ _ _ h ?_
                      intro e he
                      rcases List.mem_append.mp he with he | he
                      · exact hacc e he
                      · rcases List.mem_singleton.mp he with rfl
                        constructor
                        · simp only [hmr, Bool.false_eq_true, false_iff]
                          rintro (hn | ⟨m, hm, henq, hle⟩)
                          · simp [hmr] at hn
                          · injection hm with hm
                            subst hm
                            exact hcond ⟨henq, hle⟩
                        · simp [hmr]

theorem jmJobs_append (a b : JobsMap) : jmJobs (a ++ b) = jmJobs a ++ jmJobs b := by
  induction a with
  | nil => simp [jmJobs]
  | cons e es ih => simp [jmJobs, ih]

theorem jmJobs_set (jm : JobsMap) (qid : String) (l l' : List JobInfo)
    (h : jmFind jm qid = some l) :
    (jmJobs (jmSet jm qid l') : Multiset JobInfo) + l =
      (jmJobs jm : Multiset JobInfo) + l' := by
  induction jm with
  | nil => simp [jmFind] at h
  | cons e es ih =>
      by_cases he : e.1 = qid
      · simp only [jmFind, he, if_pos, Option.some.injEq] at h
        subst h
        simp only [jmSet, he, if_pos, jmJobs]
        simp only [← Multiset.coe_add]
        abel
      · simp only [jmFind, he, if_neg, not_false_iff] at h
        simp only [jmSet, he, if_neg, not_false_iff, jmJobs]
        simp only [← Multiset.coe_add]
        have := ih h
        simp only [← Multiset.coe_add] at this ⊢
        calc ((e.2 : Multiset JobInfo) + ↑(jmJobs (jmSet es qid l'))) + ↑l
            = (e.2 : Multiset JobInfo) + (↑(jmJobs (jmSet es qid l')) + ↑l) := by abel
          _ = (e.2 : Multiset JobInfo) + (↑(jmJobs es) + ↑l') := by rw [this]
          _ = ((e.2 : Multiset JobInfo) + ↑(jmJobs es)) + ↑l' := by abel

theorem jmJobs_push (jm : JobsMap) (qid : String) (j : JobInfo) :
    (jmJobs (jmPush jm qid j) : Multiset JobInfo) =
      (jmJobs jm : Multiset JobInfo) + {j} := by
  unfold jmPush
  match hf : jmFind jm qid with
  | none =>
      simp [jmJobs_append, jmJobs, ← Multiset.coe_add]
  | some l =>
      have hset := jmJobs_set jm qid l (l ++ [j]) hf
      have hcan : (jmJobs (jmSet jm qid (l ++ [j])) : Multiset JobInfo) + ↑l =
          ((jmJobs jm : Multiset JobInfo) + {j}) + ↑l := by
        rw [hset]
        have hsingle : ({j} : Multiset JobInfo) = (([j] : List JobInfo) : Multiset JobInfo) := rfl
        rw [hsingle, ← Multiset.coe_add]
        abel
      exact add_right_cancel hcan

/-- The job popped by the loop, together with the remaining jobs map,
redistributes the map's jobs: popping removes exactly that job. -/
theorem loop_nodup (P : Params) :
    ∀ (fuel : ℕ) (queues : List QueueInfo) (jm : JobsMap) (idle : Resource)
      (acc : List Event) (tr : List Event),
      loop P fuel queues jm idle acc = some tr →
      (acc.map (fun e => e.job.uid) ++ (jmJobs jm).map (fun j => j.uid)).Nodup →
      (tr.map (fun e => e.job.uid)).Nodup := by
  intro fuel
  induction fuel with
  | zero => intro queues jm idle acc tr h; simp [loop] at h
  | succ fuel ih =>
      intro queues jm idle acc tr h hnd
      match queues with
      | [] =>
          simp only [loop, Option.some.injEq] at h
          subst h
          exact hnd.of_append_left
      | q0 :: qs =>
          simp only [loop] at h
          by_cases hie : idle.IsEmpty
          · rw [if_pos hie] at h
            injection h with h
            subst h
            exact hnd.of_append_left
          · rw [if_neg hie] at h
            match hfind : jmFind jm (pqPop1 P.queueLess q0 qs).1.uid with
            | none => rw [hfind] at h; exact ih _ _ _ _ _ h hnd
            | some [] => rw [hfind] at h; exact ih _ _ _ _ _ h hnd
            | some (j0 :: js) =>
                rw [hfind] at h
                dsimp only at h
                have hperm : List.Perm
                    ((pqPop1 P.jobLess j0 js).1 ::
                      jmJobs (jmSet jm (pqPop1 P.queueLess q0 qs).1.uid
                        (pqPop1 P.jobLess j0 js).2))
                    (jmJobs jm) := by
                  apply Multiset.coe_eq_coe.mp
                  have hset := jmJobs_set jm (pqPop1 P.queueLess q0 qs).1.uid
                    (j0 :: js) (pqPop1 P.jobLess j0 js).2 hfind
                  have hpop : (((pqPop1 P.jobLess j0 js).1 ::
                      (pqPop1 P.jobLess j0 js).2 : List JobInfo) : Multiset JobInfo) =
                      ((j0 :: js : List JobInfo) : Multiset JobInfo) :=
                    Multiset.coe_eq_coe.mpr (pqPop1_perm P.jobLess j0 js)
                  rw [← hpop] at hset
                  have hc : ((((pqPop1 P.jobLess j0 js).1 ::
                      jmJobs (jmSet jm (pqPop1 P.queueLess q0 qs).1.uid
                        (pqPop1 P.jobLess j0 js).2) : List JobInfo)) : Multiset JobInfo) +
                      ↑(pqPop1 P.jobLess j0 js).2 =
                      (jmJobs jm : Multiset JobInfo) + ↑(pqPop1 P.jobLess j0 js).2 := by
                    rw [← hset]
                    simp only [← Multiset.cons_coe, ← Multiset.singleton_add]
                    abel
                  exact add_right_cancel hc
                have hinv : ∀ (ev : Event), ev.job = (pqPop1 P.jobLess j0 js).1 →
                    ((acc ++ [ev]).map (fun e => e.job.uid) ++
                      (jmJobs (jmSet jm (pqPop1 P.queueLess q0 qs).1.uid
                        (pqPop1 P.jobLess j0 js).2)).map (fun j => j.uid)).Nodup := by
                  intro ev hev
                  have hjm : List.Perm
                      (ev.job.uid :: (jmJobs (jmSet jm (pqPop1 P.queueLess q0 qs).1.uid
                        (pqPop1 P.jobLess j0 js).2)).map (fun j => j.uid))
                      ((jmJobs jm).map (fun j => j.uid)) := by
                    have := hperm.map (fun j => j.uid)
                    simpa [hev] using this
                  have hp : List.Perm
                      ((acc ++ [ev]).map (fun e => e.job.uid) ++
                        (jmJobs (jmSet jm (pqPop1 P.queueLess q0 qs).1.uid
                          (pqPop1 P.jobLess j0 js).2)).map (fun j => j.uid))
                      (acc.map (fun e => e.job.uid) ++
                        (jmJobs jm).map (fun j => j.uid)) := by
                    rw [show (acc ++ [ev]).map (fun e => e.job.uid) ++
                        (jmJobs (jmSet jm (pqPop1 P.queueLess q0 qs).1.uid
                          (pqPop1 P.jobLess j0 js).2)).map (fun j => j.uid) =
                        acc.map (fun e => e.job.uid) ++
                        (ev.job.uid :: (jmJobs (jmSet jm (pqPop1 P.queueLess q0 qs).1.uid
                          (pqPop1 P.jobLess j0 js).2)).map (fun j => j.uid)) by simp]
                    exact hjm.append_left _
                  exact hp.nodup_iff.mpr hnd
                match hmr : (pqPop1 P.jobLess j0 js).1.minResources with
                | none =>
                    rw [hmr] at h
                    dsimp only at h
                    exact ih _ _ _ _ _ h (hinv _ rfl)
                | some minReq =>
                    rw [hmr] at h
                    dsimp only at h
                    by_cases hcond :
                        P.jobEnqueueable (pqPop1 P.jobLess j0 js).1 = true ∧ minReq.LessEqual idle
                    · rw [if_pos hcond] at h
                      exact ih _ _ _ _ _ h (hinv _ rfl)
                    · rw [if_neg hcond] at h
                      exact ih _ _ _ _ _ h (hinv _ rfl)

theorem Resource.Empty_Add (a : Resource) : Resource.Empty.Add a = a := by
  cases a; simp [Resource.Add, Resource.Empty]

theorem cluster_fold_le (nodes : List NodeInfo) :
    ∀ aU aT : Resource,
      (∀ n ∈ nodes, Resource.Empty ≤ n.allocatable ∧ n.used ≤ n.allocatable) →
      aU ≤ aT → Resource.Empty ≤ aT →
      nodes.foldl (fun acc n => acc.Add n.used) aU ≤
          nodes.foldl (fun acc n => acc.Add n.allocatable) aT ∧
        Resource.Empty ≤ nodes.foldl (fun acc n => acc.Add n.allocatable) aT := by
  induction nodes with
  | nil => intro aU aT _ h1 h2; exact ⟨h1, h2⟩
  | cons n rest ih =>
      intro aU aT hall h1 h2
      simp only [List.foldl_cons]
      have hn := hall n (by simp)
      obtain ⟨⟨ha1, ha2⟩, ⟨hu1, hu2⟩⟩ := hn
      obtain ⟨h11, h12⟩ := h1
      obtain ⟨h21, h22⟩ := h2
      refine ih _ _ (fun m hm => hall m (by simp [hm])) ?_ ?_
      · exact ⟨by simp [Resource.Add]; linarith,
               by simp [Resource.Add]; linarith⟩
      · exact ⟨by simp [Resource.Add, Resource.Empty] at ha1 h21 ⊢; linarith,
               by simp [Resource.Add, Resource.Empty] at ha2 h22 ⊢; linarith⟩

theorem initialIdle_nonneg (ssn : Session)
    (hfac : 1 ≤ getOverCommitFactor ssn)
    (hnodes : ∀ n ∈ ssn.nodes, Resource.Empty ≤ n.allocatable ∧ n.used ≤ n.allocatable) :
    Resource.Empty ≤ initialIdle ssn := by
  obtain ⟨hUT, hT⟩ := cluster_fold_le ssn.nodes Resource.Empty Resource.Empty hnodes
    ⟨le_refl _, le_refl _⟩ ⟨le_refl _, le_refl _⟩
  have hUT' : clusterUsed ssn.nodes ≤ clusterTotal ssn.nodes := hUT
  have hT' : Resource.Empty ≤ clusterTotal ssn.nodes := hT
  obtain ⟨u1, u2⟩ := hUT'
  obtain ⟨t1, t2⟩ := hT'
  simp only [Resource.Empty] at t1 t2
  constructor
  · simp only [initialIdle, Resource.Multi, Resource.Sub, Resource.Empty]
    nlinarith
  · simp only [initialIdle, Resource.Multi, Resource.Sub, Resource.Empty]
    nlinarith

theorem buildStep_le (ssnQueues : List QueueInfo) (st : List QueueInfo × JobsMap)
    (j : JobInfo) :
    (jmJobs (buildStep ssnQueues st j).2 : Multiset JobInfo) ≤
      (jmJobs st.2 : Multiset JobInfo) + {j} := by
  unfold buildStep
  match findQueue ssnQueues j.queue with
  | none => exact Multiset.le_add_right _ _
  | some q =>
      dsimp only
      by_cases hp : j.phase = PodGroupPhase.Pending
      · rw [if_pos hp, jmJobs_push]
      · rw [if_neg hp]
        exact Multiset.le_add_right _ _

theorem buildMaps_jobs_le (ssnQueues : List QueueInfo) :
    ∀ (jobs : List JobInfo) (st : List QueueInfo × JobsMap),
      (jmJobs (jobs.foldl (buildStep ssnQueues) st).2 : Multiset JobInfo) ≤
        (jmJobs st.2 : Multiset JobInfo) + ↑jobs := by
  intro jobs
  induction jobs with
  | nil => intro st; simp
  | cons j rest ih =>
      intro st
      simp only [List.foldl_cons]
      calc (jmJobs ((rest.foldl (buildStep ssnQueues) (buildStep ssnQueues st j))).2 :
              Multiset JobInfo)
          ≤ (jmJobs (buildStep ssnQueues st j).2 : Multiset JobInfo) + ↑rest := ih _
        _ ≤ ((jmJobs st.2 : Multiset JobInfo) + {j}) + ↑rest := by
            exact add_le_add_right (buildStep_le ssnQueues st j) _
        _ = (jmJobs st.2 : Multiset JobInfo) + ↑(j :: rest) := by
            rw [add_assoc, Multiset.singleton_add, Multiset.cons_coe]

theorem buildMaps_nodup (ssn : Session)
    (h : (ssn.jobs.map (fun j => j.uid)).Nodup) :
    ((jmJobs (buildMaps ssn.jobs ssn.queues).2).map (fun j => j.uid)).Nodup := by
  have hle : (jmJobs (buildMaps ssn.jobs ssn.queues).2 : Multiset JobInfo) ≤ ↑ssn.jobs := by
    have := buildMaps_jobs_le ssn.queues ssn.jobs ([], [])
    simpa [buildMaps, jmJobs] using this
  have hmap := Multiset.map_le_map (f := fun j => j.uid) hle
  have hnd : (Multiset.map (fun j => j.uid) (↑ssn.jobs : Multiset JobInfo)).Nodup := by
    rw [Multiset.map_coe, Multiset.coe_nodup]
    exact h
  have hres := Multiset.nodup_of_le hmap hnd
  rw [Multiset.map_coe, Multiset.coe_nodup] at hres
  exact hres

/-! ### Concrete enqueue instances used by counterexamples and witnesses -/

/-- Trivial plugin parameters: insertion-order queues and jobs, every job
enqueueable (no plugin implementing `JobEnqueueableFn` registered means the
composed guard is vacuously true). -/
def exampleParams : Params :=
  ⟨fun _ _ => false, fun _ _ => false, fun _ => true⟩

/-- A session holding one `Closed` queue with one `Pending` job whose
`MinResources` is nil, over one node with 1 CPU / 1 GB free. -/
def closedSession : Session :=
  { jobs := [⟨"j1", "ns1", "job1", "q1", PodGroupPhase.Pending, none⟩]
    queues := [⟨"q1", "q1", "Closed"⟩]
    nodes := [⟨"n1", ⟨1000, 1000000000⟩, ⟨0, 0⟩⟩]
    overcommitArg := none }

/-- The trace the admission loop produces on `closedSession`. -/
def closedTrace : List Event :=
  [⟨⟨"j1", "ns1", "job1", "q1", PodGroupPhase.Pending, none⟩,
    ⟨1200, 1200000000⟩, ⟨1200, 1200000000⟩, true⟩]

theorem closedSession_trace :
    ExecuteTrace exampleParams closedSession = some closedTrace := by
  norm_num [ExecuteTrace, enoughFuel, buildMaps, buildStep, findQueue, jmPush, jmFind,
    jmSet, jmSize, loop, pqPop1, initialIdle, clusterTotal, clusterUsed, getOverCommitFactor,
    defaultOverCommitFactor, Resource.IsEmpty, Resource.Multi, Resource.Sub, Resource.Add,
    Resource.Empty, exampleParams, closedSession, closedTrace, List.find?]

/-- A session with one `Open` queue, one `Pending` job with
`MinResources = (500 mCPU, 500 B)`, one node of 1 CPU / 1 KB, default
over-commit factor. -/
def boundSession : Session :=
  { jobs := [⟨"j1", "ns1", "job1", "q1", PodGroupPhase.Pending, some ⟨500, 500⟩⟩]
    queues := [⟨"q1", "q1", "Open"⟩]
    nodes := [⟨"n1", ⟨1000, 1000⟩, ⟨0, 0⟩⟩]
    overcommitArg := none }

theorem boundSession_trace :
    ExecuteTrace exampleParams boundSession =
      some [⟨⟨"j1", "ns1", "job1", "q1", PodGroupPhase.Pending, some ⟨500, 500⟩⟩,
        ⟨1200, 1200⟩, ⟨700, 700⟩, true⟩] := by
  norm_num [ExecuteTrace, enoughFuel, buildMaps, buildStep, findQueue, jmPush, jmFind,
    jmSet, jmSize, loop, pqPop1, initialIdle, clusterTotal, clusterUsed, getOverCommitFactor,
    defaultOverCommitFactor, Resource.IsEmpty, Resource.LessEqual, Resource.Multi,
    Resource.Sub, Resource.Add, Resource.Empty, exampleParams, boundSession, List.find?]

/-- C1 counterexample: the claim "after `enqueue.Execute`, every job whose
queue has state `Closed` and whose PodGroup phase was `Pending` at the
start of the pass still has phase `Pending`" is false on the code.  In
`closedSession` the only queue has state `Closed` and the only job is
`Pending` with nil `MinResources`, yet `enqueue.Execute` sets its phase to
`Inqueue`: the action never consults queue state
(`enqueue.go` lines 97–135 contain no state check, and the nil
`MinResources` branch bypasses even `JobEnqueueable`). -/
theorem enqueue_closed_queue_counterexample :
    (∀ q ∈ closedSession.queues, q.state = "Closed") ∧
    (∀ j ∈ closedSession.jobs, j.phase = PodGroupPhase.Pending) ∧
    Execute exampleParams closedSession =
      [⟨"j1", "ns1", "job1", "q1", PodGroupPhase.Inqueue, none⟩] := by
  refine ⟨by norm_num [closedSession], by norm_num [closedSession], ?_⟩
  rw [Execute, closedSession_trace]
  norm_num [admittedUids, closedTrace, closedSession]

/-- C1 (amended): `enqueue.Execute` performs no queue-state check, so
closure does not prevent admission: every job popped by the admission loop
whose `MinResources` is nil is admitted (recorded `admitted = true`, hence
set to `Inqueue`), even when every queue of the session is `Closed`. -/
theorem enqueue_ignores_queue_state (P : Params) (ssn : Session)
    (tr : List Event) (e : Event)
    (htr : ExecuteTrace P ssn = some tr) (he : e ∈ tr)
    (_hclosed : ∀ q ∈ ssn.queues, q.state = "Closed")
    (hmr : e.job.minResources = none) :
    e.admitted = true := by
  have hok := loop_eventOK P _ _ _ _ _ tr htr (by intro e h; simp at h) e he
  exact hok.1.mpr (Or.inl hmr)

/-- C1 witness: the amended theorem applied to the concrete all-Closed
session. -/
theorem enqueue_ignores_queue_state_witness :
    (⟨⟨"j1", "ns1", "job1", "q1", PodGroupPhase.Pending, none⟩,
      ⟨1200, 1200000000⟩, ⟨1200, 1200000000⟩, true⟩ : Event).admitted = true :=
  enqueue_ignores_queue_state exampleParams closedSession closedTrace _
    closedSession_trace (by norm_num [closedTrace])
    (by norm_num [closedSession]) rfl

/-- C10: the main loop of `enqueue.Execute` terminates on every input:
with fuel `|queues| + Σ jobs + 1` the loop always returns (each iteration
either stops, permanently drops a popped queue whose job heap is missing or
empty, or removes one job — never re-inserted — and pushes the queue back),
so the admission pass is total. -/
theorem enqueue_execute_terminates (P : Params) (ssn : Session) :
    (ExecuteTrace P ssn).isSome = true :=
  ExecuteTrace_isSome P ssn

/-- C2: over-commit bound.  After the enqueue pass, the aggregate
`MinResources` of the jobs admitted in that pass (nil contributing zero) is
at most `overCommitFactor × (Σ node.Allocatable) − (Σ node.Used)`, where
the factor is the `overcommit-factor` action argument, defaulting to 1.2;
stated under the data-model invariants that node resources are non-negative
and `used ≤ allocatable`, with a factor of at least 1. -/
theorem enqueue_overcommit_bound (P : Params) (ssn : Session) (tr : List Event)
    (htr : ExecuteTrace P ssn = some tr)
    (hfac : 1 ≤ getOverCommitFactor ssn)
    (hnodes : ∀ n ∈ ssn.nodes, Resource.Empty ≤ n.allocatable ∧ n.used ≤ n.allocatable) :
    sumMin tr ≤ ((clusterTotal ssn.nodes).Multi (getOverCommitFactor ssn)).Sub
      (clusterUsed ssn.nodes) := by
  have h0 : Resource.Empty ≤ initialIdle ssn := initialIdle_nonneg ssn hfac hnodes
  unfold ExecuteTrace at htr
  have := loop_sum P _ _ _ _ [] tr htr h0
  rw [show sumMin [] = Resource.Empty from rfl, Resource.Empty_Add] at this
  exact this

/-- C2 witness: a session with one queue, one `Pending` job requiring
500 mCPU / 500 B, and one node of 1 CPU / 1 KB; the default factor 1.2
yields the bound (1200, 1200) and the single admitted job consumes
(500, 500) of it. -/
theorem enqueue_overcommit_bound_witness :
    sumMin [⟨⟨"j1", "ns1", "job1", "q1", PodGroupPhase.Pending, some ⟨500, 500⟩⟩,
        ⟨1200, 1200⟩, ⟨700, 700⟩, true⟩] ≤
      ((clusterTotal boundSession.nodes).Multi (getOverCommitFactor boundSession)).Sub
        (clusterUsed boundSession.nodes) :=
  enqueue_overcommit_bound exampleParams boundSession _
    boundSession_trace
    (by norm_num [getOverCommitFactor, boundSession, defaultOverCommitFactor])
    (by norm_num [boundSession, Resource.le_def, Resource.Empty])

/-- C3: admission condition of the enqueue loop.  Every popped job is
recorded as one trace event; the event is admitted exactly when
`MinResources` is nil, or `JobEnqueueable` holds and `MinResources ≤` the
idle resource at that moment (`eventOK` also fixes the idle bookkeeping:
admitted non-nil `MinResources` are subtracted, nothing else changes); and
no job is popped twice in a pass when the session's job UIDs are distinct,
so a rejected job stays `Pending` and is not reconsidered. -/
theorem enqueue_admission_condition (P : Params) (ssn : Session) (tr : List Event)
    (htr : ExecuteTrace P ssn = some tr) :
    (∀ e ∈ tr, eventOK P e) ∧
    ((ssn.jobs.map (fun j => j.uid)).Nodup → (tr.map (fun e => e.job.uid)).Nodup) := by
  unfold ExecuteTrace at htr
  constructor
  · exact loop_eventOK P _ _ _ _ _ tr htr (by intro e h; simp at h)
  · intro hnd
    refine loop_nodup P _ _ _ _ _ tr htr ?_
    simpa using buildMaps_nodup ssn hnd

/-- C3 witness: the admission condition instantiated on the concrete
bounded session. -/
theorem enqueue_admission_condition_witness :
    (∀ e ∈ [(⟨⟨"j1", "ns1", "job1", "q1", PodGroupPhase.Pending, some ⟨500, 500⟩⟩,
        ⟨1200, 1200⟩, ⟨700, 700⟩, true⟩ : Event)], eventOK exampleParams e) ∧
    ((boundSession.jobs.map (fun j => j.uid)).Nodup →
      (([(⟨⟨"j1", "ns1", "job1", "q1", PodGroupPhase.Pending, some ⟨500, 500⟩⟩,
        ⟨1200, 1200⟩, ⟨700, 700⟩, true⟩ : Event)]).map (fun e => e.job.uid)).Nodup) :=
  enqueue_admission_condition exampleParams boundSession _ boundSession_trace

end Enqueue

/-! ## Job controller retry policy (`pkg/controllers/job/job_controller.go`) -/

namespace JobController

/-- `maxRetries` of `job_controller.go` (line 62): the number of times a
volcano job request is retried before it is dropped out of the queue. -/
def maxRetries : ℕ := 15

/-- Modelled from the spec: the per-item exponential back-off of the
default controller rate limiter behind the controller work queues
(`workqueue.DefaultControllerRateLimiter()`, not part of the snapshot):
base delay 5 ms doubled per recorded failure, capped at 1000 s
(1 000 000 ms).  The code comment at `job_controller.go` lines 58–61
documents the resulting series `5ms*2^(maxRetries-1)`. -/
def backoffDelayMs (failures : ℕ) : ℚ :=
  min (5 * 2 ^ failures) 1000000

/-- Observable effect of one `processNextReq` pass on the work queue for
the popped request. -/
structure ProcessOutcome where
  requeued : Bool
  delayMs : Option ℚ
  retryLimitEventRecorded : Bool
  forgotten : Bool
deriving DecidableEq, Repr

/-- Embeds the error handling of `processNextReq` (lines 338–353): when the
state-machine action fails and the request's requeue count is below
`maxRetries`, the request is re-added rate-limited; when the count has
reached `maxRetries`, an event is recorded on the job and control falls
through to `queue.Forget`, dropping the request; on success the request is
forgotten. -/
def processNextReq (execErr : Bool) (numRequeues : ℕ) : ProcessOutcome :=
  if execErr then
    if numRequeues < maxRetries then
      ⟨true, some (backoffDelayMs numRequeues), false, false⟩
    else
      ⟨false, none, true, true⟩
  else
    ⟨false, none, false, true⟩

/-- C8: bounded retry with drop-on-exhaustion.  A failing request with
requeue count `n < 15` is re-enqueued rate-limited with the exponential
delay `5·2^n` ms (below the limiter's 1000 s cap for every `n < 15`); once
the count reaches 15 the request is not re-enqueued, an event is recorded
and the request is dropped (forgotten); on success the retry count is
forgotten.  The resulting delay series is the one the source comment
documents: 5 ms, 10 ms, …, 81 920 ms. -/
theorem job_retry_policy (n : ℕ) :
    (n < maxRetries → processNextReq true n =
      ⟨true, some ((5 : ℚ) * 2 ^ n), false, false⟩) ∧
    (maxRetries ≤ n → processNextReq true n = ⟨false, none, true, true⟩) ∧
    processNextReq false n = ⟨false, none, false, true⟩ ∧
    (List.range maxRetries).map backoffDelayMs =
      [5, 10, 20, 40, 80, 160, 320, 640, 1280, 2560, 5120, 10240, 20480, 40960, 81920] := by
  refine ⟨?_, ?_, ?_, ?_⟩
  · intro h
    have hcap : (5 : ℚ) * 2 ^ n ≤ 1000000 := by
      have h2 : (2 : ℚ) ^ n ≤ 2 ^ 14 := by
        apply pow_le_pow_right₀ (by norm_num)
        simp [maxRetries] at h
        omega
      nlinarith
    simp [processNextReq, h, backoffDelayMs, min_eq_left hcap]
  · intro h
    simp [processNextReq, Nat.not_lt.mpr h]
  · simp [processNextReq]
  · show (List.range 15).map backoffDelayMs = _
    simp only [show (15 : ℕ) = 14 + 1 from rfl, List.range_succ, List.map_append,
      List.map_cons, List.map_nil]
    norm_num [backoffDelayMs]

/-- C8 witness: the policy at requeue counts 3 (retry with 40 ms delay)
instantiated; hypotheses discharged at concrete inputs. -/
theorem job_retry_policy_witness :
    processNextReq true 3 = ⟨true, some ((5 : ℚ) * 2 ^ 3), false, false⟩ ∧
    processNextReq true 15 = ⟨false, none, true, true⟩ :=
  ⟨(job_retry_policy 3).1 (by norm_num [maxRetries]),
   (job_retry_policy 15).2.1 (by norm_num [maxRetries])⟩

end JobController

/-! ## Garbage collector (`pkg/controllers/garbagecollector/garbagecollector.go`) -/

namespace GC

/-- Phases of a batch `Job`'s state (`v1alpha1.JobPhase`). -/
inductive JobPhase where
  | Pending
  | Aborting
  | Aborted
  | Running
  | Restarting
  | Completing
  | Completed
  | Terminating
  | Terminated
  | Failed
deriving DecidableEq, Repr

/-- Fragment of a batch `v1alpha1.Job` used by the garbage collector.
Timestamps are integers (seconds); `lastTransitionTime = none` models the
zero `metav1.Time` (`IsZero`), and `deletionTimestamp = none` a nil
deletion timestamp. -/
structure Job where
  ns : String
  jobName : String
  uid : String
  deletionTimestamp : Option ℤ
  ttlSecondsAfterFinished : Option ℤ
  phase : JobPhase
  lastTransitionTime : Option ℤ
deriving DecidableEq, Repr

/-- Embeds `isJobFinished`: phase is `Completed`, `Failed` or `Terminated`. -/
def isJobFinished (j : Job) : Prop :=
  j.phase = JobPhase.Completed ∨ j.phase = JobPhase.Failed ∨ j.phase = JobPhase.Terminated

instance (j : Job) : Decidable (isJobFinished j) :=
  inferInstanceAs (Decidable (_ ∨ _ ∨ _))

/-- Embeds `needsCleanup`: the job has finished and has a TTL set. -/
def needsCleanup (j : Job) : Prop :=
  j.ttlSecondsAfterFinished ≠ none ∧ isJobFinished j

instance (j : Job) : Decidable (needsCleanup j) :=
  inferInstanceAs (Decidable (_ ∧ _))

/-- Embeds `jobFinishTime`: the `LastTransitionTime` of the job status, an
error when it is the zero time. -/
def jobFinishTime (j : Job) : Except String ℤ :=
  match j.lastTransitionTime with
  | none => Except.error "unable to find the time when the Job finished"
  | some t => Except.ok t

/-- Embeds `getFinishAndExpireTime`: errors when the job does not need
cleanup, otherwise returns (finish time, finish time + TTL). -/
def getFinishAndExpireTime (j : Job) : Except String (ℤ × ℤ) :=
  if needsCleanup j then
    match jobFinishTime j, j.ttlSecondsAfterFinished with
    | Except.error e, _ => Except.error e
    | Except.ok finishAt, some ttl => Except.ok (finishAt, finishAt + ttl)
    | Except.ok _, none => Except.error "job should not be cleaned up"
  else
    Except.error "job should not be cleaned up"

/-- Embeds `timeLeft`: remaining TTL at time `since`. -/
def timeLeft (j : Job) (since : ℤ) : Except String ℤ :=
  match getFinishAndExpireTime j with
  | Except.error e => Except.error e
  | Except.ok p => Except.ok (p.2 - since)

/-- Embeds `processTTL`: `false` for jobs being deleted or not needing
cleanup; otherwise expired exactly when the remaining TTL is ≤ 0 (a
not-yet-expired job is re-enqueued for later, reported `false`). -/
def processTTL (j : Job) (now : ℤ) : Except String Bool :=
  if j.deletionTimestamp ≠ none ∨ ¬needsCleanup j then Except.ok false
  else
    match timeLeft j now with
    | Except.error e => Except.error e
    | Except.ok t => if t ≤ 0 then Except.ok true else Except.ok false

/-- The delete call `processJob` issues: cascade delete of the named job
with a UID precondition. -/
structure DeleteCall where
  ns : String
  jobName : String
  uid : String
deriving DecidableEq, Repr

/-- Embeds `processJob` (lines 167–214): look up the cached job (absent ⇒
nothing to do); check TTL expiry on the cached copy; on expiry fetch a
fresh copy (absent ⇒ nothing to do) and re-check on it; only when both
checks pass, issue the cascade delete carrying the fresh copy's UID as
precondition.  `now1`/`now2` are the two `time.Now()` readings. -/
def processJob (cached : Option Job) (fresh : Option Job) (now1 now2 : ℤ) :
    Except String (Option DeleteCall) :=
  match cached with
  | none => Except.ok none
  | some job =>
      match processTTL job now1 with
      | Except.error e => Except.error e
      | Except.ok false => Except.ok none
      | Except.ok true =>
          match fresh with
          | none => Except.ok none
          | some f =>
              match processTTL f now2 with
              | Except.error e => Except.error e
              | Except.ok false => Except.ok none
              | Except.ok true => Except.ok (some ⟨f.ns, f.jobName, f.uid⟩)

/-- The TTL-expiry check as the claim states it: no deletion timestamp, a
TTL set, a finished phase, a recorded finish time, and finish + TTL ≤ now. -/
def ttlCheckPasses (j : Job) (now : ℤ) : Prop :=
  j.deletionTimestamp = none ∧
  ∃ ttl, j.ttlSecondsAfterFinished = some ttl ∧
    isJobFinished j ∧
    ∃ ft, j.lastTransitionTime = some ft ∧ ft + ttl ≤ now

theorem processTTL_ok_true_iff (j : Job) (now : ℤ) :
    processTTL j now = Except.ok true ↔ ttlCheckPasses j now := by
  unfold processTTL ttlCheckPasses timeLeft getFinishAndExpireTime jobFinishTime
  by_cases hdt : j.deletionTimestamp = none
  · by_cases hnc : needsCleanup j
    · obtain ⟨httl, hfin⟩ := hnc
      rw [if_neg (by simp [hdt]; exact ⟨httl, hfin⟩)]
      rw [if_pos ⟨httl, hfin⟩]
      match hltt : j.lastTransitionTime, httl2 : j.ttlSecondsAfterFinished with
      | none, _ => simp [hdt, hfin, hltt]
      | some ft, none => simp [httl2] at httl
      | some ft, some ttl =>
          dsimp only
          by_cases hexp : ft + ttl - now ≤ 0
          · rw [if_pos hexp]
            simp only [hdt, true_and]
            constructor
            · intro _
              exact ⟨ttl, rfl, hfin, ft, rfl, by omega⟩
            · intro _; trivial
          · rw [if_neg hexp]
            simp only [hdt, true_and]
            constructor
            · intro hc; cases hc
            · rintro ⟨ttl2, httl3, _, ft2, hltt2, hle⟩
              exfalso
              injection httl3 with h1
              injection hltt2 with h2
              omega
    · rw [if_pos (Or.inr hnc)]
      constructor
      · intro hc; cases hc
      · rintro ⟨_, ttl, httl, hfin, _⟩
        exact absurd ⟨by simp [httl], hfin⟩ hnc
  · rw [if_pos (Or.inl hdt)]
    constructor
    · intro hc; cases hc
    · rintro ⟨hdt2, _⟩
      exact absurd hdt2 hdt

/-- C9: the garbage collector deletes only after the TTL check passes
twice — once on the cached copy and once on the freshly fetched copy — and
the delete call's UID precondition equals the fresh copy's UID (so a job
re-created under the same name with a different UID fails the API server's
precondition and is never deleted); whenever either check reports
not-expired, `processJob` returns without deleting. -/
theorem gc_double_check_delete (cached fresh : Option Job) (now1 now2 : ℤ) :
    (∀ call, processJob cached fresh now1 now2 = Except.ok (some call) →
      ∃ jc jf, cached = some jc ∧ fresh = some jf ∧
        ttlCheckPasses jc now1 ∧ ttlCheckPasses jf now2 ∧
        call = ⟨jf.ns, jf.jobName, jf.uid⟩) ∧
    (∀ jc, cached = some jc → processTTL jc now1 = Except.ok false →
      processJob cached fresh now1 now2 = Except.ok none) ∧
    (∀ jc jf, cached = some jc → fresh = some jf →
      processTTL jc now1 = Except.ok true → processTTL jf now2 = Except.ok false →
      processJob cached fresh now1 now2 = Except.ok none) := by
  refine ⟨?_, ?_, ?_⟩
  · intro call h
    match hc : cached with
    | none => simp [processJob] at h
    | some jc =>
        unfold processJob at h
        dsimp only at h
        match ht1 : processTTL jc now1 with
        | Except.error e => simp only [ht1] at h; cases h
        | Except.ok false => simp only [ht1] at h; simp at h
        | Except.ok true =>
            simp only [ht1] at h
            match hf : fresh with
            | none => simp at h
            | some jf =>
                dsimp only at h
                match ht2 : processTTL jf now2 with
                | Except.error e => simp only [ht2] at h; cases h
                | Except.ok false => simp only [ht2] at h; simp at h
                | Except.ok true =>
                    simp only [ht2] at h
                    simp only [Except.ok.injEq, Option.some.injEq] at h
                    exact ⟨jc, jf, rfl, rfl,
                      (processTTL_ok_true_iff jc now1).mp ht1,
                      (processTTL_ok_true_iff jf now2).mp ht2, h.symm⟩
  · intro jc hc ht1
    subst hc
    unfold processJob
    simp only [ht1]
  · intro jc jf hc hf ht1 ht2
    subst hc; subst hf
    unfold processJob
    simp only [ht1, ht2]

/-- C9 witness: a completed job with TTL 10 finished at time 100, checked
at times 200 and 201; the fresh copy carries UID `u2` and the delete call
targets exactly that UID. -/
theorem gc_double_check_delete_witness :
    ∃ jc jf,
      some (⟨"ns1", "job1", "u1", none, some 10, JobPhase.Completed, some 100⟩ : Job) = some jc ∧
      some (⟨"ns1", "job1", "u2", none, some 10, JobPhase.Completed, some 100⟩ : Job) = some jf ∧
      ttlCheckPasses jc 200 ∧ ttlCheckPasses jf 201 ∧
      (⟨"ns1", "job1", "u2"⟩ : DeleteCall) = ⟨jf.ns, jf.jobName, jf.uid⟩ :=
  (gc_double_check_delete
      (some ⟨"ns1", "job1", "u1", none, some 10, JobPhase.Completed, some 100⟩)
      (some ⟨"ns1", "job1", "u2", none, some 10, JobPhase.Completed, some 100⟩)
      200 201).1 ⟨"ns1", "job1", "u2"⟩ (by rfl)

end GC

/-! ## Queue admission webhooks
(`pkg/webhooks/admission/queues/{validate,mutate}`)

Only the tests of the two handlers are part of the snapshot
(`validate_queue_test.go`, `mutate_queue_test.go`); the handlers themselves
are modelled from the spec (§6, external interfaces). -/

namespace QueueWebhook

/-- A webhook admission response: allowed flag and result message (empty
when allowed). -/
structure AdmissionResponseM where
  allowed : Bool
  message : String
deriving DecidableEq, Repr

/-- Looks up the state of the stored queue named `name` (the live `Queue`
objects the validating webhook consults on DELETE). -/
def lookupState (stored : List (String × String)) (name : String) : Option String :=
  (stored.find? (fun e => e.1 = name)).map (fun e => e.2)

/-- Modelled from the spec: the `Queue` validating webhook
(`AdmitQueues`).  On CREATE/UPDATE the request body's state must be
`Open`, `Closed` or absent; on DELETE the queue named `default` is always
rejected, and any other queue may be deleted only when its stored state is
`Closed`, otherwise the request is rejected with the message
`only queue with state \`Closed\` can be deleted, queue \`NAME\` state is
\`STATE\``; any other operation is rejected. -/
def AdmitQueues (operation : String) (name : String) (requestState : Option String)
    (stored : List (String × String)) : AdmissionResponseM :=
  if operation = "CREATE" ∨ operation = "UPDATE" then
    match requestState with
    | none => ⟨true, ""⟩
    | some st =>
        if st = "Open" ∨ st = "Closed" then ⟨true, ""⟩
        else ⟨false, "queue state must be in [Open Closed]"⟩
  else if operation = "DELETE" then
    if name = "default" then
      ⟨false, "`" ++ name ++ "` queue can not be deleted"⟩
    else
      match lookupState stored name with
      | none => ⟨false, "queue `" ++ name ++ "` not found"⟩
      | some st =>
          if st = "Closed" then ⟨true, ""⟩
          else
            ⟨false, "only queue with state `Closed` can be deleted, queue `" ++ name ++
              "` state is `" ++ st ++ "`"⟩
  else
    ⟨false, "invalid operation `" ++ operation ++
      "`, expect operation to be `CREATE`, `UPDATE` or `DELETE`"⟩

/-- C6: queue validating webhook on DELETE.  Deleting the queue named
`default` is always rejected; deleting any other stored queue is allowed
exactly when its current state is `Closed`, and otherwise rejected with
the message `only queue with state \`Closed\` can be deleted, queue
\`NAME\` state is \`STATE\``; any operation other than CREATE, UPDATE or
DELETE is rejected. -/
theorem queue_delete_validation (operation name : String) (requestState : Option String)
    (stored : List (String × String)) (st : String) :
    (operation = "DELETE" → name = "default" →
      (AdmitQueues operation name requestState stored).allowed = false) ∧
    (operation = "DELETE" → name ≠ "default" → lookupState stored name = some st →
      ((AdmitQueues operation name requestState stored).allowed = true ↔ st = "Closed") ∧
      (st ≠ "Closed" →
        (AdmitQueues operation name requestState stored).message =
          "only queue with state `Closed` can be deleted, queue `" ++ name ++
            "` state is `" ++ st ++ "`")) ∧
    (operation ≠ "CREATE" → operation ≠ "UPDATE" → operation ≠ "DELETE" →
      (AdmitQueues operation name requestState stored).allowed = false) := by
  refine ⟨?_, ?_, ?_⟩
  · intro hop hname
    subst hop; subst hname
    simp [AdmitQueues]
  · intro hop hname hst
    subst hop
    rw [AdmitQueues.eq_def]
    rw [if_neg (by simp), if_pos rfl, if_neg hname, hst]
    dsimp only
    by_cases hcl : st = "Closed"
    · subst hcl
      simp
    · rw [if_neg hcl]
      simp [hcl]
  · intro h1 h2 h3
    rw [AdmitQueues.eq_def]
    rw [if_neg (by simp [h1, h2]), if_neg h3]

/-- C6 witness: DELETE of the Open queue `q-open` is rejected with the
exact message, DELETE of `default` is rejected, and a `PATCH` operation is
rejected, all on a two-queue store. -/
theorem queue_delete_validation_witness :
    (("DELETE" : String) = "DELETE" → ("default" : String) = "default" →
      (AdmitQueues "DELETE" "default" none [("q-open", "Open")]).allowed = false) ∧
    (("DELETE" : String) = "DELETE" → ("q-open" : String) ≠ "default" →
      lookupState [("q-open", "Open")] "q-open" = some "Open" →
      ((AdmitQueues "DELETE" "q-open" none [("q-open", "Open")]).allowed = true ↔
        ("Open" : String) = "Closed") ∧
      (("Open" : String) ≠ "Closed" →
        (AdmitQueues "DELETE" "q-open" none [("q-open", "Open")]).message =
          "only queue with state `Closed` can be deleted, queue `" ++ "q-open" ++
            "` state is `" ++ "Open" ++ "`")) ∧
    (("PATCH" : String) ≠ "CREATE" → ("PATCH" : String) ≠ "UPDATE" →
      ("PATCH" : String) ≠ "DELETE" →
      (AdmitQueues "PATCH" "q-open" none [("q-open", "Open")]).allowed = false) :=
  ⟨(queue_delete_validation "DELETE" "default" none [("q-open", "Open")] "Open").1,
   (queue_delete_validation "DELETE" "q-open" none [("q-open", "Open")] "Open").2.1,
   (queue_delete_validation "PATCH" "q-open" none [("q-open", "Open")] "Open").2.2⟩

/-- One entry of a JSON patch. -/
structure PatchOperation where
  op : String
  path : String
  value : String
deriving DecidableEq, Repr

/-- A mutating-webhook response: allowed flag, JSON patch, and result
message for rejections. -/
structure MutateResponseM where
  allowed : Bool
  patch : List PatchOperation
  message : String
deriving DecidableEq, Repr

/-- Modelled from the spec: the `Queue` mutating webhook (`MutateQueues`).
On CREATE it returns an allowed JSON-patch that adds `/spec/state = "Open"`
when `spec.state` is absent and adds `/spec/reclaimable = true` when
`spec.reclaimable` is absent; any other operation is rejected with the
message `invalid operation \`X\`, expect operation to be \`CREATE\``. -/
def MutateQueues (operation : String) (specState : Option String)
    (reclaimable : Option Bool) : MutateResponseM :=
  if operation = "CREATE" then
    ⟨true,
      (if specState = none then [⟨"add", "/spec/state", "Open"⟩] else []) ++
        (if reclaimable = none then [⟨"add", "/spec/reclaimable", "true"⟩] else []),
      ""⟩
  else
    ⟨false, [], "invalid operation `" ++ operation ++ "`, expect operation to be `CREATE`"⟩

/-- C7: queue mutating webhook.  On CREATE the response is allowed and its
patch contains the `/spec/state = "Open"` entry exactly when `spec.state`
is absent and the `/spec/reclaimable = true` entry exactly when
`spec.reclaimable` is absent (and no entry for a present field); any other
operation is rejected with the message
`invalid operation \`X\`, expect operation to be \`CREATE\``. -/
theorem queue_mutation (operation : String) (specState : Option String)
    (reclaimable : Option Bool) :
    (operation = "CREATE" →
      (MutateQueues operation specState reclaimable).allowed = true ∧
      (specState = none ↔
        (⟨"add", "/spec/state", "Open"⟩ : PatchOperation) ∈
          (MutateQueues operation specState reclaimable).patch) ∧
      (reclaimable = none ↔
        (⟨"add", "/spec/reclaimable", "true"⟩ : PatchOperation) ∈
          (MutateQueues operation specState reclaimable).patch)) ∧
    (operation ≠ "CREATE" →
      (MutateQueues operation specState reclaimable).allowed = false ∧
      (MutateQueues operation specState reclaimable).message =
        "invalid operation `" ++ operation ++ "`, expect operation to be `CREATE`") := by
  constructor
  · intro hop
    subst hop
    refine ⟨by simp [MutateQueues], ?_, ?_⟩
    · match specState with
      | none => simp [MutateQueues]
      | some s =>
          simp only [MutateQueues, if_pos rfl]
          by_cases hr : reclaimable = none <;> simp [hr]
    · match reclaimable with
      | none => simp [MutateQueues]
      | some b =>
          simp only [MutateQueues, if_pos rfl]
          by_cases hs : specState = none <;> simp [hs]
  · intro hop
    simp [MutateQueues, hop]

/-- C7 witness: a CREATE with both fields absent yields both patch entries;
a CONNECT operation is rejected with the exact message. -/
theorem queue_mutation_witness :
    (("CREATE" : String) = "CREATE" →
      (MutateQueues "CREATE" none none).allowed = true ∧
      ((none : Option String) = none ↔
        (⟨"add", "/spec/state", "Open"⟩ : PatchOperation) ∈
          (MutateQueues "CREATE" none none).patch) ∧
      ((none : Option Bool) = none ↔
        (⟨"add", "/spec/reclaimable", "true"⟩ : PatchOperation) ∈
          (MutateQueues "CREATE" none none).patch)) ∧
    (("CONNECT" : String) ≠ "CREATE" →
      (MutateQueues "CONNECT" none none).allowed = false ∧
      (MutateQueues "CONNECT" none none).message =
        "invalid operation `" ++ "CONNECT" ++ "`, expect operation to be `CREATE`") :=
  ⟨(queue_mutation "CREATE" none none).1,
   (queue_mutation "CONNECT" none none).2⟩

end QueueWebhook

/-! ## Allocate action

Modelled from the spec (§4.5 allocate, §4.7 plugin contracts): the
repository snapshot holds only the action's test
(`pkg/scheduler/actions/allocate/allocate_test.go`); the action itself is
absent and is modelled from the specification text.  The model follows the
spec's algorithm with the plugin configuration of the repository's tests
(drf job order, proportion queue order, gang job-ready): an outer priority
queue of queues ordered by the proportion share `allocated/deserved`
(smaller first, `deserved = total × weight/Σweights`); per queue a priority
queue of jobs ordered by DRF dominant share; per job the pending tasks in
order (no task-order plugin).  For each popped job, tasks are placed on the
first node whose idle resource fits the request (no predicate or
node-order plugin is enabled and the sampling policy is inert for the
modelled single-node scenarios); after a task is placed, a job whose
super-gang is already ready yields — it is pushed back so other queues
proceed (round-robin fair share, spec §8 S2).  Jobs sharing a non-empty
`(queue, subgroup)` tag form a super-gang (an empty subgroup stands
alone); when the last member of a super-gang has been attempted, the whole
super-gang is committed (its placements become binds) if every member has
at least `MinMember` tasks placed, and otherwise rolled back as a whole,
returning every member's placements to the nodes (spec §4.5 subgroup gang
rule).  The namespace tier of the spec's two-level structure is folded
into the per-queue job order: every modelled scenario has exactly one
namespace per queue, making the namespace order inert. -/

namespace Allocate

/-- One pending pod of a PodGroup: namespace, name, resource request. -/
structure ATask where
  tns : String
  tname : String
  req : Resource
deriving DecidableEq, Repr

/-- A PodGroup competing in the allocate action: name, namespace, queue,
subgroup tag (empty = standalone), `MinMember`, and its pending tasks. -/
structure AJob where
  jname : String
  jns : String
  queue : String
  subgroup : String
  minMember : ℕ
  tasks : List ATask
deriving DecidableEq, Repr

/-- A node with its allocatable resource (all of it idle at the start of
the modelled scenarios: every pod is pending). -/
structure ANode where
  nname : String
  allocatable : Resource
deriving DecidableEq, Repr

/-- A queue with its proportional weight. -/
structure AQueue where
  aqname : String
  weight : ℚ
deriving DecidableEq, Repr

/-- The allocate action's input snapshot. -/
structure Input where
  jobs : List AJob
  nodes : List ANode
  queues : List AQueue
deriving Repr

/-- Finds the queue with the given name. -/
def findAQueue : List AQueue → String → Option AQueue
  | [], _ => none
  | q :: qs, n => if q.aqname = n then some q else findAQueue qs n

/-- Finds the job with the given name. -/
def findAJob : List AJob → String → Option AJob
  | [], _ => none
  | j :: js, n => if j.jname = n then some j else findAJob js n

/-- Names of the jobs of `queue` sharing the non-empty `subgroup` tag. -/
def unitNames (queue subgroup : String) : List AJob → List String
  | [] => []
  | j :: js =>
      if j.queue = queue ∧ j.subgroup = subgroup then j.jname :: unitNames queue subgroup js
      else unitNames queue subgroup js

/-- Names of the jobs belonging to the given queue, in snapshot order. -/
def jobsOfQueue (qn : String) : List AJob → List String
  | [] => []
  | j :: js => if j.queue = qn then j.jname :: jobsOfQueue qn js else jobsOfQueue qn js

/-- First-match association-list lookup (Go map access). -/
def assocFind {α : Type} : List (String × α) → String → Option α
  | [], _ => none
  | e :: es, k => if e.1 = k then some e.2 else assocFind es k

/-- Replaces the first entry with the given key. -/
def assocSet {α : Type} : List (String × α) → String → α → List (String × α)
  | [], _, _ => []
  | e :: es, k, v => if e.1 = k then (k, v) :: es else e :: assocSet es k v

/-- Mutable state of one allocate pass. -/
structure State where
  idle : List (String × Resource)
  qalloc : List (String × Resource)
  rem : List (String × List ATask)
  allocs : List (String × List (ATask × String))
  attempted : List String
  qpq : List String
  jpq : List (String × List String)
  binds : List (String × String)
deriving Repr

/-- Total cluster resource, `Σ node.allocatable`. -/
def clusterTotal (G : Input) : Resource :=
  G.nodes.foldl (fun a n => a.Add n.allocatable) Resource.Empty

/-- Sum of the queue weights. -/
def weightSum (G : Input) : ℚ :=
  (G.queues.map (fun q => q.weight)).sum

/-- Proportion plugin: `deserved = total_cluster × weight / Σweights`. -/
def deserved (G : Input) (q : AQueue) : Resource :=
  (clusterTotal G).Multi (q.weight / weightSum G)

/-- Dominant ratio of `a` against `d` (dimension with the largest share;
a zero dimension of `d` contributes 0, division by zero being 0). -/
def resShare (a d : Resource) : ℚ :=
  max (a.milliCPU / d.milliCPU) (a.memory / d.memory)

/-- Proportion plugin queue share: `allocated / deserved`. -/
def queueShare (G : Input) (S : State) (qn : String) : ℚ :=
  (findAQueue G.queues qn).elim 0
    (fun q => resShare ((assocFind S.qalloc qn).getD Resource.Empty) (deserved G q))

/-- Resource a job has been tentatively allocated in this pass. -/
def jobAllocated (S : State) (jn : String) : Resource :=
  ((assocFind S.allocs jn).getD []).foldl (fun a p => a.Add p.1.req) Resource.Empty

/-- DRF plugin dominant share of a job against the cluster total. -/
def jobShare (G : Input) (S : State) (jn : String) : ℚ :=
  resShare (jobAllocated S jn) (clusterTotal G)

/-- `QueueOrderFn` of the modelled configuration: smaller proportion share
first. -/
def qLess (G : Input) (S : State) (a b : String) : Prop :=
  queueShare G S a < queueShare G S b

instance (G : Input) (S : State) : DecidableRel (qLess G S) :=
  fun a b => inferInstanceAs (Decidable (queueShare G S a < queueShare G S b))

/-- `JobOrderFn` of the modelled configuration: smaller DRF dominant share
first. -/
def jLess (G : Input) (S : State) (a b : String) : Prop :=
  jobShare G S a < jobShare G S b

instance (G : Input) (S : State) : DecidableRel (jLess G S) :=
  fun a b => inferInstanceAs (Decidable (jobShare G S a < jobShare G S b))

/-- Modelled from the spec (§4.1): pop a least element with respect to the
decidable order `less` from the non-empty queue `x :: xs` (ties to the
earliest pushed). -/
def popMin {α : Type} (less : α → α → Prop) [DecidableRel less] : α → List α → α × List α
  | x, [] => (x, [])
  | x, y :: ys =>
      let p := popMin less y ys
      if less p.1 x then (p.1, x :: p.2) else (x, y :: ys)

/-- The super-gang of a job: all jobs sharing its `(queue, subgroup)` tag
when the subgroup is non-empty, the job alone otherwise. -/
def unitOf (G : Input) (jn : String) : List String :=
  (findAJob G.jobs jn).elim [jn]
    (fun j => if j.subgroup = "" then [jn] else unitNames j.queue j.subgroup G.jobs)

/-- `MinMember` of the named job. -/
def minMemberOf (G : Input) (jn : String) : ℕ :=
  ((findAJob G.jobs jn).map (fun j => j.minMember)).getD 0

/-- Queue of the named job. -/
def queueOfJob (G : Input) (jn : String) : String :=
  ((findAJob G.jobs jn).map (fun j => j.queue)).getD ""

/-- Gang plugin `JobReadyFn`: at least `MinMember` tasks placed. -/
def jobReady (G : Input) (S : State) (jn : String) : Prop :=
  minMemberOf G jn ≤ ((assocFind S.allocs jn).getD []).length

instance (G : Input) (S : State) (jn : String) : Decidable (jobReady G S jn) :=
  inferInstanceAs (Decidable (_ ≤ _))

/-- Super-gang readiness: every member of the unit is ready. -/
def unitReady (G : Input) (S : State) (jn : String) : Prop :=
  ∀ u ∈ unitOf G jn, jobReady G S u

instance (G : Input) (S : State) (jn : String) : Decidable (unitReady G S jn) :=
  List.decidableBAll _ _

/-- Whether every member of the unit has been fully attempted. -/
def unitFullyAttempted (G : Input) (S : State) (jn : String) : Prop :=
  ∀ u ∈ unitOf G jn, u ∈ S.attempted

instance (G : Input) (S : State) (jn : String) : Decidable (unitFullyAttempted G S jn) :=
  List.decidableBAll _ _

/-- First node whose idle resource fits the request (no predicate or
node-order plugin enabled; single-node scenarios make sampling inert). -/
def findNodeFit : List (String × Resource) → Resource → Option String
  | [], _ => none
  | e :: es, req => if req.LessEqual e.2 then some e.1 else findNodeFit es req

/-- Tentatively places task `t` of job `jn` (queue `q`) on node `n`:
`node.idle -= request`, the placement is recorded on the job, and the
queue's allocated amount grows (proportion bookkeeping). -/
def allocOne (S : State) (jn q : String) (t : ATask) (n : String) : State :=
  { S with
    idle := assocSet S.idle n (((assocFind S.idle n).getD Resource.Empty).Sub t.req)
    allocs := assocSet S.allocs jn (((assocFind S.allocs jn).getD []) ++ [(t, n)])
    qalloc := assocSet S.qalloc q (((assocFind S.qalloc q).getD Resource.Empty).Add t.req) }

/-- Attempts the remaining tasks of job `jn` in order: place each on the
first fitting node (an unplaceable task is skipped); once the job's
super-gang is ready and tasks remain, the job yields (round-robin across
queues).  Returns the new state, the unconsumed tasks and the yield flag. -/
def attemptTasks (G : Input) (jn q : String) : List ATask → State → State × List ATask × Bool
  | [], S => (S, [], false)
  | t :: rest, S =>
      match findNodeFit S.idle t.req with
      | none => attemptTasks G jn q rest S
      | some n =>
          let S2 := allocOne S jn q t n
          if unitReady G S2 jn ∧ rest ≠ [] then (S2, rest, true)
          else attemptTasks G jn q rest S2

/-- Pod key of a task, `namespace/name`. -/
def taskKey (t : ATask) : String := t.tns ++ "/" ++ t.tname

/-- Commits a ready super-gang: every member's placements become binds. -/
def commitUnit (G : Input) (S : State) (jn : String) : State :=
  { S with
    binds := S.binds ++ (unitOf G jn).foldl (fun acc u =>
      acc ++ ((assocFind S.allocs u).getD []).map (fun p => (taskKey p.1, p.2))) [] }

/-- Rolls back one job: its placements return to the nodes and the queue's
allocated amount shrinks accordingly. -/
def rollbackJob (G : Input) (S : State) (u : String) : State :=
  let al := (assocFind S.allocs u).getD []
  let q := queueOfJob G u
  let freed := al.foldl (fun a p => a.Add p.1.req) Resource.Empty
  let S2 := al.foldl (fun St p =>
    let cur := (assocFind St.idle p.2).getD Resource.Empty
    { St with idle := assocSet St.idle p.2 (cur.Add p.1.req) }) S
  let newq := ((assocFind S2.qalloc q).getD Resource.Empty).Sub freed
  { S2 with
    qalloc := assocSet S2.qalloc q newq
    allocs := assocSet S2.allocs u [] }

/-- Rolls back a whole super-gang. -/
def rollbackUnit (G : Input) (S : State) (jn : String) : State :=
  (unitOf G jn).foldl (rollbackJob G) S

/-- One iteration of the allocate action's main loop (`none` when the
queue priority queue is exhausted and the pass is over).  Pop the queue
with the smallest proportion share; drop it when it has no jobs left;
otherwise pop its smallest job by DRF order and attempt its remaining
tasks.  A yielding job is pushed back; a fully attempted job is marked,
and when it completes its super-gang the unit is committed if every member
reached `MinMember` and rolled back as a whole otherwise.  The queue is
pushed back after each job visit. -/
def stepOnce (G : Input) (S : State) : Option State :=
  match S.qpq with
  | [] => none
  | q0 :: qs =>
      let pq := popMin (qLess G S) q0 qs
      match assocFind S.jpq pq.1 with
      | none => some { S with qpq := pq.2 }
      | some [] => some { S with qpq := pq.2 }
      | some (j0 :: js) =>
          let pj := popMin (jLess G S) j0 js
          let att := attemptTasks G pj.1 pq.1 ((assocFind S.rem pj.1).getD []) S
          if att.2.2 then
            some { att.1 with
              rem := assocSet att.1.rem pj.1 att.2.1
              jpq := assocSet att.1.jpq pq.1 (pj.2 ++ [pj.1])
              qpq := pq.2 ++ [pq.1] }
          else
            let S3 := { att.1 with
              rem := assocSet att.1.rem pj.1 []
              jpq := assocSet att.1.jpq pq.1 pj.2
              attempted := att.1.attempted ++ [pj.1] }
            let S4 :=
              if unitFullyAttempted G S3 pj.1 then
                if unitReady G S3 pj.1 then commitUnit G S3 pj.1
                else rollbackUnit G S3 pj.1
              else S3
            some { S4 with qpq := pq.2 ++ [pq.1] }

/-- The allocate action's main loop: iterate `stepOnce` until the queue
priority queue is exhausted, then report the binds issued during the pass
(fuel-bounded; `none` = fuel ran out). -/
def allocLoop (G : Input) : ℕ → State → Option (List (String × String))
  | 0, _ => none
  | fuel + 1, S =>
      match stepOnce G S with
      | none => some S.binds
      | some S2 => allocLoop G fuel S2

theorem allocLoop_step (G : Input) (fuel : ℕ) (S S2 : State)
    (h : stepOnce G S = some S2) :
    allocLoop G (fuel + 1) S = allocLoop G fuel S2 := by
  simp only [allocLoop, h]

theorem allocLoop_done (G : Input) (fuel : ℕ) (S : State)
    (h : stepOnce G S = none) :
    allocLoop G (fuel + 1) S = some S.binds := by
  simp only [allocLoop, h]

/-- Initial state: all nodes fully idle, no allocations, every queue's jobs
queued in snapshot order. -/
def initState (G : Input) : State :=
  { idle := G.nodes.map (fun n => (n.nname, n.allocatable))
    qalloc := G.queues.map (fun q => (q.aqname, Resource.Empty))
    rem := G.jobs.map (fun j => (j.jname, j.tasks))
    allocs := G.jobs.map (fun j => (j.jname, []))
    attempted := []
    qpq := G.queues.map (fun q => q.aqname)
    jpq := G.queues.map (fun q => (q.aqname, jobsOfQueue q.aqname G.jobs))
    binds := [] }

/-- Total number of pending tasks. -/
def totalTasks (G : Input) : ℕ :=
  (G.jobs.map (fun j => j.tasks.length)).sum

/-- The allocate action end to end: every iteration either allocates a
task (yield), finishes a job, or drops a queue, so
`totalTasks + jobs + queues + 1` fuel suffices on the modelled scenarios. -/
def Execute (G : Input) : Option (List (String × String)) :=
  allocLoop G (totalTasks G + G.jobs.length + G.queues.length + 1) (initState G)

/-- 1 CPU / 1 G pod request of the repository's allocate tests. -/
def podRes : Resource := ⟨1000, 1000000000⟩

/-- Scenario S2 of the spec (test "two Jobs on one node"): queues `c1`,
`c2` of weight 1 with one two-pod job each, one node with 2 CPU / 4 G. -/
def s2Input : Input :=
  { jobs := [⟨"pg1", "c1", "c1", "", 0, [⟨"c1", "p1", podRes⟩, ⟨"c1", "p2", podRes⟩]⟩,
             ⟨"pg2", "c2", "c2", "", 0, [⟨"c2", "p1", podRes⟩, ⟨"c2", "p2", podRes⟩]⟩]
    nodes := [⟨"n1", ⟨2000, 4000000000⟩⟩]
    queues := [⟨"c1", 1⟩, ⟨"c2", 1⟩] }

/-- Scenario S3 of the spec (test "Three jobs, only one job get
allocated"): `pg1` (subgroup `sub1`, min 3), `pg2` (subgroup `sub1`,
min 2), `pg3` (empty subgroup, min 2) in queue `c1`, one node with
4 CPU / 4 Gi. -/
def s3Input : Input :=
  { jobs := [⟨"pg1", "c1", "c1", "sub1", 3,
               [⟨"c1", "p1", podRes⟩, ⟨"c1", "p2", podRes⟩, ⟨"c1", "p3", podRes⟩]⟩,
             ⟨"pg2", "c1", "c1", "sub1", 2,
               [⟨"c1", "p4", podRes⟩, ⟨"c1", "p5", podRes⟩]⟩,
             ⟨"pg3", "c1", "c1", "", 2,
               [⟨"c1", "p6", podRes⟩, ⟨"c1", "p7", podRes⟩]⟩]
    nodes := [⟨"n1", ⟨4000, 4294967296⟩⟩]
    queues := [⟨"c1", 1⟩] }


set_option maxHeartbeats 1000000

/-- Shorthand for a 1 CPU / 1 G task. -/
def tk (ns pn : String) : ATask := ⟨ns, pn, podRes⟩

/-! The intermediate states of the two modelled scenario runs, one per
loop iteration, each step proved as a separate `stepOnce` equation. -/

def s2State1 : State :=
  { idle := [("n1", ⟨1000, 3000000000⟩)]
    qalloc := [("c1", ⟨1000, 1000000000⟩), ("c2", ⟨0, 0⟩)]
    rem := [("pg1", [tk "c1" "p2"]), ("pg2", [tk "c2" "p1", tk "c2" "p2"])]
    allocs := [("pg1", [(tk "c1" "p1", "n1")]), ("pg2", [])]
    attempted := []
    qpq := ["c2", "c1"]
    jpq := [("c1", ["pg1"]), ("c2", ["pg2"])]
    binds := [] }

def s2State2 : State :=
  { idle := [("n1", ⟨0, 2000000000⟩)]
    qalloc := [("c1", ⟨1000, 1000000000⟩), ("c2", ⟨1000, 1000000000⟩)]
    rem := [("pg1", [tk "c1" "p2"]), ("pg2", [tk "c2" "p2"])]
    allocs := [("pg1", [(tk "c1" "p1", "n1")]), ("pg2", [(tk "c2" "p1", "n1")])]
    attempted := []
    qpq := ["c1", "c2"]
    jpq := [("c1", ["pg1"]), ("c2", ["pg2"])]
    binds := [] }

def s2State3 : State :=
  { idle := [("n1", ⟨0, 2000000000⟩)]
    qalloc := [("c1", ⟨1000, 1000000000⟩), ("c2", ⟨1000, 1000000000⟩)]
    rem := [("pg1", []), ("pg2", [tk "c2" "p2"])]
    allocs := [("pg1", [(tk "c1" "p1", "n1")]), ("pg2", [(tk "c2" "p1", "n1")])]
    attempted := ["pg1"]
    qpq := ["c2", "c1"]
    jpq := [("c1", []), ("c2", ["pg2"])]
    binds := [("c1/p1", "n1")] }

def s2State4 : State :=
  { idle := [("n1", ⟨0, 2000000000⟩)]
    qalloc := [("c1", ⟨1000, 1000000000⟩), ("c2", ⟨1000, 1000000000⟩)]
    rem := [("pg1", []), ("pg2", [])]
    allocs := [("pg1", [(tk "c1" "p1", "n1")]), ("pg2", [(tk "c2" "p1", "n1")])]
    attempted := ["pg1", "pg2"]
    qpq := ["c1", "c2"]
    jpq := [("c1", []), ("c2", [])]
    binds := [("c1/p1", "n1"), ("c2/p1", "n1")] }

def s2State5 : State :=
  { s2State4 with qpq := ["c2"] }

def s2State6 : State :=
  { s2State4 with qpq := [] }

theorem s2_step1 : stepOnce s2Input (initState s2Input) = some s2State1 := by
  simp [(by norm_num : (1000:ℚ) ≤ 2000), (by norm_num : (1000000000:ℚ) ≤ 4000000000),
    (by norm_num : (2000:ℚ) - 1000 = 1000),
    (by norm_num : (4000000000:ℚ) - 1000000000 = 3000000000),
    stepOnce, popMin, qLess, jLess, queueShare, jobShare, resShare, deserved,
    weightSum, clusterTotal, assocFind, assocSet, attemptTasks, findNodeFit, allocOne,
    unitReady, jobReady, unitOf, minMemberOf, queueOfJob, unitFullyAttempted, commitUnit,
    rollbackUnit, rollbackJob, taskKey, jobAllocated, findAQueue, findAJob, unitNames,
    jobsOfQueue, Resource.LessEqual, Resource.Add, Resource.Sub, Resource.Multi,
    Resource.Empty, s2Input, initState, podRes, tk, s2State1]

theorem s2_step2 : stepOnce s2Input s2State1 = some s2State2 := by
  simp [(by norm_num : (1:ℚ) + 1 = 2),
    (by norm_num : ¬ ((1000:ℚ) / (2000 * 2⁻¹) < 0)),
    (by norm_num : ¬ ((1000000000:ℚ) / (4000000000 * 2⁻¹) < 0)),
    (by norm_num : (1000000000:ℚ) ≤ 3000000000),
    (by norm_num : (3000000000:ℚ) - 1000000000 = 2000000000),
    (by norm_num : (1000:ℚ) - 1000 = 0),
    stepOnce, popMin, qLess, jLess, queueShare, jobShare, resShare, deserved,
    weightSum, clusterTotal, assocFind, assocSet, attemptTasks, findNodeFit, allocOne,
    unitReady, jobReady, unitOf, minMemberOf, queueOfJob, unitFullyAttempted, commitUnit,
    rollbackUnit, rollbackJob, taskKey, jobAllocated, findAQueue, findAJob, unitNames,
    jobsOfQueue, Resource.LessEqual, Resource.Add, Resource.Sub, Resource.Multi,
    Resource.Empty, s2Input, podRes, tk, s2State1, s2State2]

theorem s2_step3 : stepOnce s2Input s2State2 = some s2State3 := by
  simp [(by norm_num : (1:ℚ) + 1 = 2),
    (by norm_num : ¬ ((1000:ℚ) ≤ 0)),
    (show "c1" ++ "/" ++ "p1" = "c1/p1" from rfl),
    stepOnce, popMin, qLess, jLess, queueShare, jobShare, resShare, deserved,
    weightSum, clusterTotal, assocFind, assocSet, attemptTasks, findNodeFit, allocOne,
    unitReady, jobReady, unitOf, minMemberOf, queueOfJob, unitFullyAttempted, commitUnit,
    rollbackUnit, rollbackJob, taskKey, jobAllocated, findAQueue, findAJob, unitNames,
    jobsOfQueue, Resource.LessEqual, Resource.Add, Resource.Sub, Resource.Multi,
    Resource.Empty, s2Input, podRes, tk, s2State2, s2State3]

theorem s2_step4 : stepOnce s2Input s2State3 = some s2State4 := by
  simp [(by norm_num : (1:ℚ) + 1 = 2),
    (by norm_num : ¬ ((1000:ℚ) ≤ 0)),
    (show "c2" ++ "/" ++ "p1" = "c2/p1" from rfl),
    stepOnce, popMin, qLess, jLess, queueShare, jobShare, resShare, deserved,
    weightSum, clusterTotal, assocFind, assocSet, attemptTasks, findNodeFit, allocOne,
    unitReady, jobReady, unitOf, minMemberOf, queueOfJob, unitFullyAttempted, commitUnit,
    rollbackUnit, rollbackJob, taskKey, jobAllocated, findAQueue, findAJob, unitNames,
    jobsOfQueue, Resource.LessEqual, Resource.Add, Resource.Sub, Resource.Multi,
    Resource.Empty, s2Input, podRes, tk, s2State3, s2State4]

theorem s2_step5 : stepOnce s2Input s2State4 = some s2State5 := by
  simp [(by norm_num : (1:ℚ) + 1 = 2),
    stepOnce, popMin, qLess, jLess, queueShare, jobShare, resShare, deserved,
    weightSum, clusterTotal, assocFind, assocSet, attemptTasks, findNodeFit, allocOne,
    unitReady, jobReady, unitOf, minMemberOf, queueOfJob, unitFullyAttempted, commitUnit,
    rollbackUnit, rollbackJob, taskKey, jobAllocated, findAQueue, findAJob, unitNames,
    jobsOfQueue, Resource.LessEqual, Resource.Add, Resource.Sub, Resource.Multi,
    Resource.Empty, s2Input, podRes, tk, s2State4, s2State5]

theorem s2_step6 : stepOnce s2Input s2State5 = some s2State6 := by
  simp [stepOnce, popMin, qLess, jLess, queueShare, jobShare, resShare, deserved,
    weightSum, clusterTotal, assocFind, assocSet, attemptTasks, findNodeFit, allocOne,
    unitReady, jobReady, unitOf, minMemberOf, queueOfJob, unitFullyAttempted, commitUnit,
    rollbackUnit, rollbackJob, taskKey, jobAllocated, findAQueue, findAJob, unitNames,
    jobsOfQueue, Resource.LessEqual, Resource.Add, Resource.Sub, Resource.Multi,
    Resource.Empty, s2Input, podRes, tk, s2State4, s2State5, s2State6]

theorem s2_done : stepOnce s2Input s2State6 = none := by
  simp [stepOnce, s2State6, s2State4]

theorem s2_fuel : Execute s2Input = allocLoop s2Input 9 (initState s2Input) := by
  norm_num [Execute, totalTasks, s2Input]

/-- C5: fair share across queues (scenario S2).  With queues `c1` and `c2`
of weight 1, one pending two-pod job in each (1 CPU / 1 G pods) and one
node of 2 CPU / 4 G, the allocate action binds exactly one pod from each
queue — `{c1/p1: n1, c2/p1: n1}` — rather than both pods of a single
queue: after the first pod of a queue is placed, its job is ready and
yields, and the proportion order then prefers the other queue. -/
theorem allocate_fair_share :
    Execute s2Input = some [("c1/p1", "n1"), ("c2/p1", "n1")] := by
  rw [s2_fuel, show (9:ℕ) = 8+1 from rfl, allocLoop_step _ _ _ _ s2_step1,
      show (8:ℕ) = 7+1 from rfl, allocLoop_step _ _ _ _ s2_step2,
      show (7:ℕ) = 6+1 from rfl, allocLoop_step _ _ _ _ s2_step3,
      show (6:ℕ) = 5+1 from rfl, allocLoop_step _ _ _ _ s2_step4,
      show (5:ℕ) = 4+1 from rfl, allocLoop_step _ _ _ _ s2_step5,
      show (4:ℕ) = 3+1 from rfl, allocLoop_step _ _ _ _ s2_step6,
      show (3:ℕ) = 2+1 from rfl, allocLoop_done _ _ _ s2_done]
  simp [s2State6, s2State4]

def s3State1 : State :=
  { idle := [("n1", ⟨1000, 1294967296⟩)]
    qalloc := [("c1", ⟨3000, 3000000000⟩)]
    rem := [("pg1", []), ("pg2", [tk "c1" "p4", tk "c1" "p5"]), ("pg3", [tk "c1" "p6", tk "c1" "p7"])]
    allocs := [("pg1", [(tk "c1" "p1", "n1"), (tk "c1" "p2", "n1"), (tk "c1" "p3", "n1")]),
               ("pg2", []), ("pg3", [])]
    attempted := ["pg1"]
    qpq := ["c1"]
    jpq := [("c1", ["pg2", "pg3"])]
    binds := [] }

def s3State2 : State :=
  { idle := [("n1", ⟨4000, 4294967296⟩)]
    qalloc := [("c1", ⟨0, 0⟩)]
    rem := [("pg1", []), ("pg2", []), ("pg3", [tk "c1" "p6", tk "c1" "p7"])]
    allocs := [("pg1", []), ("pg2", []), ("pg3", [])]
    attempted := ["pg1", "pg2"]
    qpq := ["c1"]
    jpq := [("c1", ["pg3"])]
    binds := [] }

def s3State3 : State :=
  { idle := [("n1", ⟨2000, 2294967296⟩)]
    qalloc := [("c1", ⟨2000, 2000000000⟩)]
    rem := [("pg1", []), ("pg2", []), ("pg3", [])]
    allocs := [("pg1", []), ("pg2", []),
               ("pg3", [(tk "c1" "p6", "n1"), (tk "c1" "p7", "n1")])]
    attempted := ["pg1", "pg2", "pg3"]
    qpq := ["c1"]
    jpq := [("c1", [])]
    binds := [("c1/p6", "n1"), ("c1/p7", "n1")] }

def s3State4 : State :=
  { s3State3 with qpq := [] }

theorem s3_step1 : stepOnce s3Input (initState s3Input) = some s3State1 := by
  simp [(by norm_num : (1000:ℚ) ≤ 4000), (by norm_num : (1000000000:ℚ) ≤ 4294967296),
    (by norm_num : (1000:ℚ) ≤ 3000), (by norm_num : (1000000000:ℚ) ≤ 3294967296),
    (by norm_num : (1000:ℚ) ≤ 2000), (by norm_num : (1000000000:ℚ) ≤ 2294967296),
    (by norm_num : (4000:ℚ) - 1000 = 3000),
    (by norm_num : (4294967296:ℚ) - 1000000000 = 3294967296),
    (by norm_num : (3000:ℚ) - 1000 = 2000),
    (by norm_num : (3294967296:ℚ) - 1000000000 = 2294967296),
    (by norm_num : (2000:ℚ) - 1000 = 1000),
    (by norm_num : (2294967296:ℚ) - 1000000000 = 1294967296),
    (by norm_num : (1000:ℚ) + 1000 = 2000),
    (by norm_num : (2000:ℚ) + 1000 = 3000),
    (by norm_num : (1000000000:ℚ) + 1000000000 = 2000000000),
    (by norm_num : (2000000000:ℚ) + 1000000000 = 3000000000),
    stepOnce, popMin, qLess, jLess, queueShare, jobShare, resShare, deserved,
    weightSum, clusterTotal, assocFind, assocSet, attemptTasks, findNodeFit, allocOne,
    unitReady, jobReady, unitOf, minMemberOf, queueOfJob, unitFullyAttempted, commitUnit,
    rollbackUnit, rollbackJob, taskKey, jobAllocated, findAQueue, findAJob, unitNames,
    jobsOfQueue, Resource.LessEqual, Resource.Add, Resource.Sub, Resource.Multi,
    Resource.Empty, s3Input, initState, podRes, tk, s3State1]

theorem s3_step2 : stepOnce s3Input s3State1 = some s3State2 := by
  simp [(by norm_num : (1000000000:ℚ) ≤ 1294967296),
    (by norm_num : ¬ ((1000:ℚ) ≤ 0)),
    (by norm_num : (1294967296:ℚ) - 1000000000 = 294967296),
    (by norm_num : (3000:ℚ) + 1000 = 4000),
    (by norm_num : (3000000000:ℚ) + 1000000000 = 4000000000),
    (by norm_num : (0:ℚ) + 1000 = 1000),
    (by norm_num : (294967296:ℚ) + 1000000000 = 1294967296),
    (by norm_num : (1000:ℚ) + 1000 = 2000),
    (by norm_num : (1294967296:ℚ) + 1000000000 = 2294967296),
    (by norm_num : (2000:ℚ) + 1000 = 3000),
    (by norm_num : (2294967296:ℚ) + 1000000000 = 3294967296),
    (by norm_num : (3294967296:ℚ) + 1000000000 = 4294967296),
    (by norm_num : (1000000000:ℚ) + 1000000000 = 2000000000),
    (by norm_num : (2000000000:ℚ) + 1000000000 = 3000000000),
    (by norm_num : (4000:ℚ) - 3000 = 1000),
    (by norm_num : (4000000000:ℚ) - 3000000000 = 1000000000),
    (by norm_num : (1000:ℚ) - 1000 = 0),
    (by norm_num : (1000000000:ℚ) - 1000000000 = 0),
    stepOnce, popMin, qLess, jLess, queueShare, jobShare, resShare, deserved,
    weightSum, clusterTotal, assocFind, assocSet, attemptTasks, findNodeFit, allocOne,
    unitReady, jobReady, unitOf, minMemberOf, queueOfJob, unitFullyAttempted, commitUnit,
    rollbackUnit, rollbackJob, taskKey, jobAllocated, findAQueue, findAJob, unitNames,
    jobsOfQueue, Resource.LessEqual, Resource.Add, Resource.Sub, Resource.Multi,
    Resource.Empty, s3Input, podRes, tk, s3State1, s3State2]

theorem s3_step3 : stepOnce s3Input s3State2 = some s3State3 := by
  simp [(by norm_num : (1000:ℚ) ≤ 4000), (by norm_num : (1000000000:ℚ) ≤ 4294967296),
    (by norm_num : (1000:ℚ) ≤ 3000), (by norm_num : (1000000000:ℚ) ≤ 3294967296),
    (by norm_num : (4000:ℚ) - 1000 = 3000),
    (by norm_num : (4294967296:ℚ) - 1000000000 = 3294967296),
    (by norm_num : (3000:ℚ) - 1000 = 2000),
    (by norm_num : (3294967296:ℚ) - 1000000000 = 2294967296),
    (by norm_num : (1000:ℚ) + 1000 = 2000),
    (by norm_num : (1000000000:ℚ) + 1000000000 = 2000000000),
    (show "c1" ++ "/" ++ "p6" = "c1/p6" from rfl),
    (show "c1" ++ "/" ++ "p7" = "c1/p7" from rfl),
    stepOnce, popMin, qLess, jLess, queueShare, jobShare, resShare, deserved,
    weightSum, clusterTotal, assocFind, assocSet, attemptTasks, findNodeFit, allocOne,
    unitReady, jobReady, unitOf, minMemberOf, queueOfJob, unitFullyAttempted, commitUnit,
    rollbackUnit, rollbackJob, taskKey, jobAllocated, findAQueue, findAJob, unitNames,
    jobsOfQueue, Resource.LessEqual, Resource.Add, Resource.Sub, Resource.Multi,
    Resource.Empty, s3Input, podRes, tk, s3State2, s3State3]

theorem s3_step4 : stepOnce s3Input s3State3 = some s3State4 := by
  simp [stepOnce, popMin, qLess, jLess, queueShare, jobShare, resShare, deserved,
    weightSum, clusterTotal, assocFind, assocSet, attemptTasks, findNodeFit, allocOne,
    unitReady, jobReady, unitOf, minMemberOf, queueOfJob, unitFullyAttempted, commitUnit,
    rollbackUnit, rollbackJob, taskKey, jobAllocated, findAQueue, findAJob, unitNames,
    jobsOfQueue, Resource.LessEqual, Resource.Add, Resource.Sub, Resource.Multi,
    Resource.Empty, s3Input, podRes, tk, s3State3, s3State4]

theorem s3_done : stepOnce s3Input s3State4 = none := by
  simp [stepOnce, s3State4, s3State3]

theorem s3_fuel : Execute s3Input = allocLoop s3Input 12 (initState s3Input) := by
  norm_num [Execute, totalTasks, s3Input]

/-- C4: subgroup super-gang allocation (scenario S3).  With `pg1`
(subgroup `sub1`, MinMember 3), `pg2` (subgroup `sub1`, MinMember 2) and
`pg3` (empty subgroup, MinMember 2) in queue `c1`, 1 CPU / 1 G pods and
one node of 4 CPU / 4 Gi, the super-gang `pg1 ∪ pg2` (5 pods) cannot
become ready together and is rolled back as a whole, and the allocate
action binds exactly `{c1/p6: n1, c1/p7: n1}` — only `pg3` is allocated. -/
theorem allocate_subgroup_gang :
    Execute s3Input = some [("c1/p6", "n1"), ("c1/p7", "n1")] := by
  rw [s3_fuel, show (12:ℕ) = 11+1 from rfl, allocLoop_step _ _ _ _ s3_step1,
      show (11:ℕ) = 10+1 from rfl, allocLoop_step _ _ _ _ s3_step2,
      show (10:ℕ) = 9+1 from rfl, allocLoop_step _ _ _ _ s3_step3,
      show (9:ℕ) = 8+1 from rfl, allocLoop_step _ _ _ _ s3_step4,
      show (8:ℕ) = 7+1 from rfl, allocLoop_done _ _ _ s3_done]
  simp [s3State4, s3State3]

end Allocate

end Volcano
